import Mathlib

set_option maxRecDepth 4000

/-!
# Verification model of apkkit's APK creation pipeline

This file is a shallow embedding of `apkkit/io/apkfile.py` (the archive
assembly, hashing and signing pipeline of apkkit) together with the parts of
its interface to `apkkit.base.package.Package`, `apkkit.io.util.recursive_size`
and the external tools (`gzip`, `tar`, `abuild-tar`, RSA signing, `hashlib`)
that the pipeline's contracts depend on.

Modelling conventions:

* Byte strings are `List Nat` (each element a byte value).
* The tar format is modelled structurally: each member is a 512-byte header
  (name field, size field, magic) followed by the member contents padded to a
  multiple of 512 bytes; a closed archive ends with 1024 zero bytes and is
  padded to a multiple of the 10240-byte record size, exactly as Python's
  `tarfile` writes it.  Header metadata that no claim mentions (modes, times,
  owners) is not represented.
* A gzip member is modelled structurally as the 10-byte header (magic,
  method, flags and the 4-byte modification time that `gzip.GzipFile` stamps
  from the current clock), the compressed body (the DEFLATE transform is
  abstracted to the raw bytes with an explicit length, keeping the real
  format's property that members are self-delimiting and independently
  decodable), and the 8-byte trailer.  Concatenated members form a valid
  multi-member stream, as with real gzip.
* Where a stream's read position decides behaviour —
  `shutil.copyfileobj(src, dst)` reads from `src`'s current position — the
  position is modelled explicitly (`ByteStream`): `_make_control_tgz` hands
  its stream back positioned at EOF, `_sign_control` hands its back rewound,
  and `data_gzio` is rewound (`data_gzio.seek(0)`) before it is copied.
-/

namespace Apkkit

/-- Byte strings. -/
abbrev Bytes := List Nat

/-- Fixed-width little-endian byte encoding of a natural number; models the
fixed-width numeric fields of the tar and gzip framing. -/
def le : Nat → Nat → Bytes
  | 0, _ => []
  | k + 1, n => n % 256 :: le k (n / 256)

/-- Decode a little-endian byte field. -/
def ld (bs : Bytes) : Nat := bs.foldr (fun b acc => b + 256 * acc) 0

/-- One member of a tar stream: its name and its content bytes. -/
structure TarEntry where
  name : String
  content : Bytes
deriving DecidableEq

/-- Zero padding needed to bring `n` bytes up to a multiple of 512. -/
def padLen (n : Nat) : Nat := (512 - n % 512) % 512

/-- The 100-byte name field of a tar header. -/
def nameField (s : String) : Bytes :=
  s.data.map Char.toNat ++ List.replicate (100 - s.length) 0

/-- A 512-byte tar member header: name field, size field, `ustar` magic,
zero padding.  (apkkit asks `tarfile` for PAX format; for the member names and
sizes that occur in the claims the layout is the plain header.) -/
def tarHeader (name : String) (size : Nat) : Bytes :=
  nameField name ++ le 12 size ++ [117, 115, 116, 97, 114] ++ List.replicate 395 0

/-- The bytes a tar writer emits for one member: header, then the content
padded to a multiple of 512 bytes. -/
def tarEntryBytes (e : TarEntry) : Bytes :=
  tarHeader e.name e.content.length ++ (e.content ++ List.replicate (padLen e.content.length) 0)

/-- The bytes of a sequence of members, with no end-of-archive marker (the
state of an archive that has not been closed). -/
def tarStream (es : List TarEntry) : Bytes := (es.map tarEntryBytes).flatten

/-- What `TarFile.close` appends: two 512-byte zero blocks (the end-of-archive
marker) and zero padding to a multiple of the 10240-byte record size. -/
def closeTar (bs : Bytes) : Bytes :=
  (bs ++ List.replicate 1024 0) ++
    List.replicate ((10240 - (bs.length + 1024) % 10240) % 10240) 0

/-- Decode a tar header name field: the bytes before the first NUL. -/
def decName (bs : Bytes) : String := ⟨(bs.takeWhile (fun b => b != 0)).map Char.ofNat⟩

/-- Tar stream reader, as Python's `tarfile` reads member after member:
stop cleanly at end of data or at a zero block (the end-of-archive marker),
otherwise decode the header, take the padded content, and continue. -/
def parseTar (bs : Bytes) : Option (List TarEntry) :=
  if h512 : bs.length < 512 then
    if bs.isEmpty then some [] else none
  else if (bs.take 512).all (fun b => b == 0) then some []
  else
    let size := ld ((bs.drop 100).take 12)
    if (bs.drop 512).length < size then none
    else (parseTar ((bs.drop 512).drop (size + padLen size))).map
      (fun es => { name := decName (bs.take 100), content := (bs.drop 512).take size } :: es)
termination_by bs.length
decreasing_by
  simp only [List.length_drop]
  omega

/-- The member shapes for which the modelled tar layout is exact: name of at
most 100 characters with no NUL, content size within the 12-byte size field. -/
def wfEntry (e : TarEntry) : Prop :=
  e.name.data.length ≤ 100 ∧ (∀ c ∈ e.name.data, c.toNat ≠ 0) ∧ e.content.length < 256 ^ 12

instance (e : TarEntry) : Decidable (wfEntry e) := by unfold wfEntry; infer_instance

/-- One gzip member, as `gzip.GzipFile(mode='wb', fileobj=...)` writes it:
the 10-byte header — magic `1f 8b`, deflate method, flags, and the 4-byte
modification time taken from the current clock (`mtime`) plus XFL/OS — then
the compressed body, then the 8-byte CRC32/ISIZE trailer.  The DEFLATE body is
abstracted to the raw bytes prefixed by an explicit length; like the real
format the member is self-delimiting, so independent members can be
concatenated and decoded one after the other. -/
def gzipCompress (mtime : Nat) (data : Bytes) : Bytes :=
  31 :: 139 :: 8 :: 0 :: (le 4 mtime ++ [0, 255] ++ le 8 data.length ++ data ++
    le 4 0 ++ le 4 data.length)

/-- Decode a whole byte stream as a sequence of gzip members and concatenate
their decompressed contents — exactly what Python's `GzipFile` (and hence
`tarfile.open(mode='r')`) does with a multi-member stream. -/
def gunzipAll (bs : Bytes) : Option Bytes :=
  match bs with
  | [] => some []
  | 31 :: 139 :: 8 :: 0 :: rest =>
    if h14 : rest.length < 14 then none
    else
      let n := ld ((rest.drop 6).take 8)
      if hn : (rest.drop 14).length < n + 8 then none
      else (gunzipAll ((rest.drop 14).drop (n + 8))).map
        (fun tl => (rest.drop 14).take n ++ tl)
  | _ => none
termination_by bs.length
decreasing_by
  simp only [List.length_drop]
  simp
  omega

/-! ## Strings as byte streams, and the decimal codec used by the
`.PKGINFO` text format -/

/-- The byte view of a string (codepoint per byte; the archive text in the
claims is ASCII). -/
def strBytes (s : String) : Bytes := s.data.map Char.toNat

/-- Decode a byte stream back into text. -/
def bytesStr (bs : Bytes) : String := ⟨bs.map Char.ofNat⟩

/-- A decimal digit character. -/
def decDigit (d : Nat) : Char := Char.ofNat (48 + d % 10)

/-- Decimal digits, most significant first, by fuel-bounded division. -/
def natDecAux : Nat → Nat → List Char
  | 0, _ => []
  | fuel + 1, n =>
    if n < 10 then [decDigit n] else natDecAux fuel (n / 10) ++ [decDigit (n % 10)]

/-- Decimal digit string of a natural number, most significant digit first. -/
def natDec (n : Nat) : List Char := natDecAux (n + 1) n

/-- Render a natural number in decimal. -/
def natToDec (n : Nat) : String := ⟨natDec n⟩

/-- The numeric value of a decimal digit character, if it is one. -/
def decVal (c : Char) : Option Nat :=
  if 48 ≤ c.toNat ∧ c.toNat ≤ 57 then some (c.toNat - 48) else none

/-- Parse a decimal digit string. -/
def decToNat (cs : List Char) : Option Nat :=
  cs.foldl (fun acc c => acc.bind (fun a => (decVal c).map (fun d => a * 10 + d))) (some 0)

/-! ## The package metadata record and its `.PKGINFO` text form -/

/-- The package metadata record.  Modelled from the spec: `Package`
(`apkkit.base.package`, not under `src/`); the fields are the ones §6 of the
spec lists as consumed/produced (name, version, architecture, description,
url, installed size, depends, provides, payload hash).  `data_hash` is absent
(`none`) until the creation pipeline sets it. -/
structure Package where
  name : String
  version : String
  arch : String
  description : String
  url : String
  depends : List String
  provides : List String
  size : Nat
  data_hash : Option String
deriving DecidableEq

/-- One `key: value` line of the `.PKGINFO` text. -/
def kvLine (k v : String) : List Char := (k.data ++ [':', ' ']) ++ (v.data ++ ['\n'])

/-- Modelled from the spec: `Package.to_pkginfo` (`apkkit.base.package`, not
under `src/`) serializes the record as UTF-8 `key: value` lines — one line per
scalar field, one line per dependency and per provided capability, and a
`data_hash` line only when the hash has been set. -/
def pkginfoChars (p : Package) : List Char :=
  kvLine "name" p.name ++ (kvLine "version" p.version ++ (kvLine "arch" p.arch ++
    (kvLine "description" p.description ++ (kvLine "url" p.url ++
    (kvLine "size" (natToDec p.size) ++
    ((p.depends.map (kvLine "depend")).flatten ++
    ((p.provides.map (kvLine "provide")).flatten ++
    (match p.data_hash with
     | some h => kvLine "data_hash" h
     | none => []))))))))

/-- The `.PKGINFO` text of a record. -/
def to_pkginfo (p : Package) : String := ⟨pkginfoChars p⟩

/-- Read one line: the characters before the first newline, and the rest. -/
def readLine : List Char → Option (List Char × List Char)
  | [] => none
  | c :: cs =>
    if c = '\n' then some ([], cs)
    else (readLine cs).map (fun pr => (c :: pr.1, pr.2))

/-- Strip an expected literal from the front of a character stream. -/
def dropPre : List Char → List Char → Option (List Char)
  | [], l => some l
  | _ :: _, [] => none
  | c :: cs, d :: ds => if c = d then dropPre cs ds else none

/-- Parse one `key: value` line for a fixed key. -/
def parseKV (k : String) (cs : List Char) : Option (String × List Char) :=
  (dropPre (k.data ++ [':', ' ']) cs).bind fun rest =>
    (readLine rest).map fun pr => (⟨pr.1⟩, pr.2)

/-- Parse a run of consecutive lines sharing one key. -/
def parseMulti (k : String) : Nat → List Char → List String × List Char
  | 0, cs => ([], cs)
  | fuel + 1, cs =>
    match parseKV k cs with
    | none => ([], cs)
    | some (v, rest) =>
      let pr := parseMulti k fuel rest
      (v :: pr.1, pr.2)

/-- Modelled from the spec: `Package.from_pkginfo` (`apkkit.base.package`, not
under `src/`) parses the `key: value` text back into a metadata record. -/
def from_pkginfo (s : String) : Option Package :=
  (parseKV "name" s.data).bind fun pn =>
  (parseKV "version" pn.2).bind fun pv =>
  (parseKV "arch" pv.2).bind fun pa =>
  (parseKV "description" pa.2).bind fun pd =>
  (parseKV "url" pd.2).bind fun pu =>
  (parseKV "size" pu.2).bind fun ps =>
  (decToNat ps.1.data).bind fun sz =>
  let dep := parseMulti "depend" ps.2.length ps.2
  let prov := parseMulti "provide" dep.2.length dep.2
  if prov.2 = [] then some ⟨pn.1, pv.1, pa.1, pd.1, pu.1, dep.1, prov.1, sz, none⟩
  else
    (parseKV "data_hash" prov.2).bind fun ph =>
    if ph.2 = [] then
      some ⟨pn.1, pv.1, pa.1, pd.1, pu.1, dep.1, prov.1, sz, some ph.1⟩
    else none

/-- A field value that survives the line format: it contains no newline. -/
def wfValue (s : String) : Prop := ∀ c ∈ s.data, c ≠ '\n'

instance (s : String) : Decidable (wfValue s) := by unfold wfValue; infer_instance

/-- Well-formedness of an optional field value. -/
def wfOptValue : Option String → Prop
  | some h => wfValue h
  | none => True

instance (o : Option String) : Decidable (wfOptValue o) := by
  cases o <;> unfold wfOptValue <;> infer_instance

/-- The record fields are well-formed for the `key: value` line format. -/
def wfPackage (p : Package) : Prop :=
  wfValue p.name ∧ wfValue p.version ∧ wfValue p.arch ∧ wfValue p.description ∧
  wfValue p.url ∧ (∀ d ∈ p.depends, wfValue d) ∧ (∀ v ∈ p.provides, wfValue v) ∧
  wfOptValue p.data_hash

instance (p : Package) : Decidable (wfPackage p) := by unfold wfPackage; infer_instance

/-! ## The filter set (`FILTERS`, `_tar_filter`, `_ensure_no_debug`) and the
payload directory -/

/-- Does `needle` occur at the start of the stream? -/
def listHasPre : List Char → List Char → Bool
  | [], _ => true
  | _ :: _, [] => false
  | c :: cs, d :: ds => c == d && listHasPre cs ds

/-- Does `needle` occur anywhere in the stream? -/
def listHasSub (needle : List Char) : List Char → Bool
  | [] => needle.isEmpty
  | d :: ds => listHasPre needle (d :: ds) || listHasSub needle ds

/-- Python's `in` operator on strings. -/
def strContains (hay needle : String) : Bool := listHasSub needle.data hay.data

/-- `_ensure_no_debug`: the always-installed filter function; per its
docstring it returns True exactly when the filename is a debug file
(`'usr/lib/debug' in filename`). -/
def ensure_no_debug (filename : String) : Bool := strContains filename "usr/lib/debug"

/-- `_tar_filter`: calls every registered filter function on the filename and
returns `all(results)`.  `tarfile.add` treats this callable as its `exclude`
predicate: a True result EXCLUDES the file. -/
def tar_filter (filters : List (String → Bool)) (filename : String) : Bool :=
  (filters.map (fun f => f filename)).all id

/-- The filter set a `create` run installs: `FILTERS` is reset, the
caller-supplied `filters` keyword is registered, then `_ensure_no_debug` is
always added. -/
def apkFilters (filters : List (String → Bool)) : List (String → Bool) :=
  filters ++ [ensure_no_debug]

/-- A filesystem object under the data directory: a regular file with its
content bytes, or a directory with its children in listing order. -/
inductive FSNode where
  | file (name : String) (content : Bytes)
  | dir (name : String) (children : List FSNode)

/-- The object's own filename. -/
def FSNode.name : FSNode → String
  | .file n _ => n
  | .dir n _ => n

/-- `glob.glob(datadir + '/*')`: the top-level directory entries in listing
order; the shell pattern `*` does not match names that begin with a dot. -/
def globStar (tree : List FSNode) : List FSNode :=
  tree.filter (fun n => !(n.name.data.head? == some '.'))

mutual

/-- `TarFile.add(item, arcname, exclude=...)`: consult the exclusion
predicate on the filesystem path first — if it returns True nothing at all is
added; otherwise emit the member (a directory member carries a trailing slash
and no content) and recurse into the children, extending both the filesystem
path and the archive name with the child's filename. -/
def tarAdd (excl : String → Bool) : String → String → FSNode → List TarEntry
  | path, arc, FSNode.file _ c => if excl path then [] else [⟨arc, c⟩]
  | path, arc, FSNode.dir _ children =>
    if excl path then []
    else ⟨arc ++ "/", []⟩ :: tarAddList excl path arc children

/-- The recursion of `TarFile.add` over a directory listing. -/
def tarAddList (excl : String → Bool) : String → String → List FSNode → List TarEntry
  | _, _, [] => []
  | path, arc, n :: ns =>
    tarAdd excl (path ++ "/" ++ n.name) (arc ++ "/" ++ n.name) n ++
      tarAddList excl path arc ns
end

/-- The payload members `_make_data_tgz` collects: each top-level glob match
is added with its basename as the archive name. -/
def dataEntries (datadir : String) (tree : List FSNode)
    (filters : List (String → Bool)) : List TarEntry :=
  ((globStar tree).map (fun n =>
    tarAdd (tar_filter filters) (datadir ++ "/" ++ n.name) n.name n)).flatten

mutual

/-- Modelled from the spec: `recursive_size` (`apkkit.io.util`, not under
`src/`).  `APKFile.create` calls it as `recursive_size(datadir)` — a function
of the directory alone, with no access to the filter set — and per its name
it totals the byte size of every file under the directory, recursively. -/
def recursive_size_node : FSNode → Nat
  | FSNode.file _ c => c.length
  | FSNode.dir _ children => recursive_size_list children

/-- Total file size of a directory listing. -/
def recursive_size_list : List FSNode → Nat
  | [] => 0
  | n :: ns => recursive_size_node n + recursive_size_list ns
end

/-- Total size of the whole data directory. -/
def recursive_size (tree : List FSNode) : Nat := recursive_size_list tree

/-! ## The content hasher, the signer, and the pipeline -/

/-- A hexadecimal digit character. -/
def hexChar (n : Nat) : Char :=
  Char.ofNat (if n % 16 < 10 then 48 + n % 16 else 87 + n % 16)

/-- Modelled: `getattr(hashlib, hash_method)(data).hexdigest()`.  The digest
is abstracted to an injective hexadecimal fingerprint of the hashed bytes,
tagged with the algorithm name: the pipeline's contracts rely only on the
digest being a deterministic function of exactly the hashed bytes and, for
distinctness, on collision-freeness, which the spec assumes of the real
digests. -/
def hexdigest (alg : String) (data : Bytes) : String :=
  ⟨alg.data ++ '-' :: (data.map (fun b => [hexChar (b / 16 % 16), hexChar (b % 16)])).flatten⟩

/-- Modelled: the PKCS#1 v1.5 RSA/SHA-256 signature `_sign_control` computes
over the current control bytes — deterministic in the key and in the signed
bytes; its cryptographic internals are irrelevant to the claims. -/
def rsaSign (key : Nat) (data : Bytes) : Bytes := le 4 key ++ data

/-- The failures of the signing path: the `cryptography` import failed at
module load (using the signing names then raises `NameError`), or the private
key cannot be opened/decoded. -/
inductive BuildError where
  | backendUnavailable
  | keyUnavailable
deriving DecidableEq

/-- `_make_control_tgz`: serialize the record, put it in a single `.PKGINFO`
tar member, and gzip that stream.  `control_tar.close()` runs only after the
copy into the gzip stream, so no end-of-archive marker is written.  The value
is the CONTENTS of the `gzio` buffer the function returns; the buffer object
itself comes back positioned at its end — the gzip `with` block writes into
it and nothing in the function seeks it back (see `atEOF` at the use site in
`APKFile.create`). -/
def make_control_tgz (package : Package) (now : Nat) : Bytes :=
  gzipCompress now (tarEntryBytes ⟨".PKGINFO", strBytes (to_pkginfo package)⟩)

/-- The uncompressed payload tar `_make_data_tgz` writes to the scratch file:
the filtered members, then the end-of-archive marker and record padding that
closing the `with tarfile.open(...)` block appends. -/
def dataTarBytes (datadir : String) (tree : List FSNode)
    (filters : List (String → Bool)) : Bytes :=
  closeTar (tarStream (dataEntries datadir tree filters))

/-- Modelled from the spec: the external `abuild-tar --hash` child process
`_make_data_tgz` pipes the raw tar through.  §9 of the spec directs that its
checksum overlay "is treated as an opaque pass-through byte transform", so it
is modelled as the identity transform on the tar stream. -/
def abuild_tar_hash (bs : Bytes) : Bytes := bs

/-- `_make_data_tgz`: write the filtered payload tar to the `mkstemp` scratch
file, pipe it through `abuild-tar --hash`, gzip the helper's output.  The
result is returned together with the scratch paths still existing on disk
when the function returns: the `with os.fdopen(fd, ...)` block closes the
descriptor, but no code path ever unlinks `pkg_data_path`, so the scratch
file survives the call. -/
def make_data_tgz (datadir : String) (tree : List FSNode)
    (filters : List (String → Bool)) (now : Nat) (tmpPath : String) :
    Bytes × List String :=
  (gzipCompress now (abuild_tar_hash (dataTarBytes datadir tree filters)), [tmpPath])

/-- `_sign_control`: sign the CURRENT bytes of the compressed control segment
(`signer.update(control.getvalue())` — `getvalue` reads the whole buffer
no matter where it stands), build a new, unclosed tar fragment holding only
the `.SIGN.RSA.<pubkey>` member, gzip that fragment on its own, and append
the original compressed control segment after it (the function rewinds
`control` with `control.seek(0)` before that copy).  The value is the
contents of the returned buffer; the buffer itself comes back rewound to the
start — the function ends with `controlgz.seek(0)`. -/
def sign_control (control : Bytes) (privkey : Nat) (pubkey : String)
    (now : Nat) : Bytes :=
  gzipCompress now (tarEntryBytes ⟨".SIGN.RSA." ++ pubkey, rsaSign privkey control⟩) ++
    control

/-- An in-memory byte stream (`io.BytesIO`): its contents together with its
current read position.  `shutil.copyfileobj(src, dst)` reads from `src`'s
CURRENT position, so the position a helper leaves its stream at decides what
a later copy transfers. -/
structure ByteStream where
  data : Bytes
  pos : Nat
deriving DecidableEq

/-- A stream as a writing helper hands it back: contents written, position
standing at the end of the data (`tell()` equals the length).  This is the
state `_make_control_tgz` returns `gzio` in. -/
def atEOF (bs : Bytes) : ByteStream := ⟨bs, bs.length⟩

/-- A stream rewound to the start (`seek(0)`) — the state `_sign_control`
returns its stream in, and the state `data_gzio` is in after the
`data_gzio.seek(0)` that `create` always runs before assembling the
archive. -/
def rewound (bs : Bytes) : ByteStream := ⟨bs, 0⟩

/-- The bytes `shutil.copyfileobj` transfers out of a stream: everything
from the current position to the end — nothing at all when the stream
stands at EOF. -/
def copyfileobj (b : ByteStream) : Bytes := b.data.drop b.pos

/-- An `APKFile` instance: the in-memory archive stream and the metadata
record it carries. -/
structure APKFile where
  fileobj : Bytes
  package : Package
deriving DecidableEq

/-- The metadata lookup `APKFile.__init__` performs when no `package` is
passed: open the stream as a compressed tar (`GzipFile` decodes every member
of the multi-member stream and `tarfile` walks the members), fetch
`.PKGINFO` (`TarFile.getmember` resolves a name to its LAST occurrence in
the archive) and parse it with `Package.from_pkginfo`. -/
def readPackage (bs : Bytes) : Option Package :=
  (gunzipAll bs).bind fun stream =>
    (parseTar stream).bind fun entries =>
      ((entries.filter (fun e => e.name == ".PKGINFO")).getLast?).bind fun e =>
        from_pkginfo (bytesStr e.content)

/-- `APKFile.__init__(fileobj=..., package=...)`: when a record is passed it
is kept as is (no parsing of the stream); otherwise the record is parsed out
of the stream's `.PKGINFO`. -/
def APKFile.init (fileobj : Bytes) (package : Option Package) : Option APKFile :=
  match package with
  | some p => some ⟨fileobj, p⟩
  | none => (readPackage fileobj).map (fun p => ⟨fileobj, p⟩)

/-- The outcome of a successful `APKFile.create`: the returned `APKFile` and
the scratch paths still existing on disk. -/
structure CreateResult where
  apk : APKFile
  scratchRemaining : List String
deriving DecidableEq

/-- `APKFile.create`, one run of the pipeline.  Beyond the source arguments
(`package`, the data directory, `sign`, `data_hash`, `hash_method` and the
`filters` keyword) the model makes the run's environment explicit: the
directory's contents (`tree`), whether the `cryptography` import succeeded
(`cryptoAvail`), the outcome of resolving and loading the private key
(`privkey`, covering `PACKAGE_PRIVKEY`/`signfile` and
`load_pem_private_key`), the resolved public key name (`pubkeyName`,
covering `PACKAGE_PUBKEY`/basename), the clock second `gzip.GzipFile` stamps
into each member header it writes (`now`), and the `mkstemp` path
(`tmpPath`).  The body follows the source line by line: reset and register
the filters, set `package.size` from `recursive_size(datadir)`, build and
compress the payload, hash the compressed payload into `package.data_hash`
when requested, build the compressed control segment, sign it when
requested (failures propagate — nothing catches them), and assemble the
archive with two `shutil.copyfileobj` copies into `combined`.  What the
first copy transfers depends on the control stream's position:
`_make_control_tgz` hands its stream back positioned at EOF and the
unsigned branch never seeks it back before `shutil.copyfileobj(controlgz,
combined)`, so that copy transfers nothing there; `_sign_control` returns
its stream rewound, so a signed run transfers the whole signed segment.
The payload stream is rewound in both branches (`data_gzio.seek(0)` runs
unconditionally after the optional hash read), so the second copy always
transfers the whole payload segment.  The result record is handed to
`APKFile.__init__` as the `package` argument (the EOF-positioned `combined`
buffer is never read there, so the run returns normally either way). -/
def APKFile.create (package : Package) (datadir : String) (tree : List FSNode)
    (filters : List (String → Bool)) (sign : Bool) (cryptoAvail : Bool)
    (privkey : Option Nat) (pubkeyName : String) (data_hash : Bool)
    (hash_method : String) (now : Nat) (tmpPath : String) :
    Except BuildError CreateResult :=
  let fs := apkFilters filters
  let pkg1 : Package := { package with size := recursive_size tree }
  let dataPair := make_data_tgz datadir tree fs now tmpPath
  let pkg2 : Package :=
    if data_hash then { pkg1 with data_hash := some (hexdigest hash_method dataPair.1) }
    else pkg1
  let controlgz := make_control_tgz pkg2 now
  (if sign then
    if cryptoAvail then
      match privkey with
      | some k => Except.ok (rewound (sign_control controlgz k pubkeyName now))
      | none => Except.error BuildError.keyUnavailable
    else Except.error BuildError.backendUnavailable
  else Except.ok (atEOF controlgz)).map fun finalControl =>
    match APKFile.init (copyfileobj finalControl ++ dataPair.1) (some pkg2) with
    | some apk => { apk := apk, scratchRemaining := dataPair.2 }
    | none => { apk := ⟨copyfileobj finalControl ++ dataPair.1, pkg2⟩, scratchRemaining := dataPair.2 }

/-- The record as the pipeline leaves it: installed size set from
`recursive_size`, and — when hashing is requested — the payload hash set
from the compressed payload segment. -/
def createdPackage (package : Package) (tree : List FSNode) (datadir : String)
    (filters : List (String → Bool)) (data_hash : Bool) (hash_method : String)
    (now : Nat) (tmpPath : String) : Package :=
  if data_hash then
    { package with
      size := recursive_size tree
      data_hash := some (hexdigest hash_method
        (make_data_tgz datadir tree (apkFilters filters) now tmpPath).1) }
  else { package with size := recursive_size tree }

mutual

/-- Tree shapes under which the modelled tar name and size fields are exact:
`arcLen` is the length of the node's archive name; names have no NUL and the
archive names (with the trailing slash for directories) fit the 100-byte name
field; file sizes fit the 12-byte size field. -/
def wfNode : Nat → FSNode → Bool
  | arcLen, FSNode.file n c =>
      n.data.all (fun ch => ch.toNat != 0) && decide (arcLen ≤ 100) &&
        decide (c.length < 256 ^ 12)
  | arcLen, FSNode.dir n children =>
      n.data.all (fun ch => ch.toNat != 0) && decide (arcLen + 1 ≤ 100) &&
        wfNodeList (arcLen + 1) children

/-- Well-formedness of a directory listing, `base` being the length of the
enclosing directory's archive name including its trailing slash. -/
def wfNodeList : Nat → List FSNode → Bool
  | _, [] => true
  | base, n :: ns => wfNode (base + n.name.data.length) n && wfNodeList base ns
end

/-! ## Example inputs used by the concrete instances below -/

/-- A small example metadata record. -/
def pkgEx : Package :=
  { name := "hello", version := "1.0", arch := "x86_64", description := "a demo",
    url := "https://example.org", depends := ["musl", "zlib>1"], provides := [],
    size := 0, data_hash := none }

/-- A small example data directory: `bin/hello`. -/
def treeEx : List FSNode :=
  [FSNode.dir "bin" [FSNode.file "hello" [104, 105, 33]]]

/-- A data directory holding a three-byte `a` and a five-byte debug file
`usr/lib/debug/x`. -/
def treeDbg : List FSNode :=
  [FSNode.dir "usr" [FSNode.dir "lib" [FSNode.dir "debug"
      [FSNode.file "x" [9, 9, 9, 9, 9]]]],
   FSNode.file "a" [1, 2, 3]]

/-- The result of the concrete unsigned, unhashed run over `treeDbg` (the
control stream stands at EOF, so the copy out of it is empty and only the
payload segment reaches the archive). -/
def resC6 : CreateResult :=
  ⟨⟨copyfileobj (atEOF (make_control_tgz
        (createdPackage pkgEx treeDbg "/d" [] false "sha256" 0 "/t") 0)) ++
      (make_data_tgz "/d" treeDbg (apkFilters []) 0 "/t").1,
    createdPackage pkgEx treeDbg "/d" [] false "sha256" 0 "/t"⟩, ["/t"]⟩

/-- The results of two concrete hashing runs at clock second 3 over `treeEx`,
for two different records (unsigned runs: the EOF-positioned control stream
contributes nothing to the archive). -/
def resC9a : CreateResult :=
  ⟨⟨copyfileobj (atEOF (make_control_tgz
        (createdPackage pkgEx treeEx "/d" [] true "sha256" 3 "/t") 3)) ++
      (make_data_tgz "/d" treeEx (apkFilters []) 3 "/t").1,
    createdPackage pkgEx treeEx "/d" [] true "sha256" 3 "/t"⟩, ["/t"]⟩

/-- Companion result to `resC9a` for the record with another name. -/
def resC9b : CreateResult :=
  ⟨⟨copyfileobj (atEOF (make_control_tgz
        (createdPackage { pkgEx with name := "other" } treeEx "/d" []
          true "sha256" 3 "/t") 3)) ++
      (make_data_tgz "/d" treeEx (apkFilters []) 3 "/t").1,
    createdPackage { pkgEx with name := "other" } treeEx "/d" [] true "sha256" 3
      "/t"⟩, ["/t"]⟩

/-- The result of the concrete unsigned hashing run over `treeEx` at clock
second 0 (again, the EOF-positioned control stream contributes nothing). -/
def resC10 : CreateResult :=
  ⟨⟨copyfileobj (atEOF (make_control_tgz
        (createdPackage pkgEx treeEx "/d" [] true "sha256" 0 "/t") 0)) ++
      (make_data_tgz "/d" treeEx (apkFilters []) 0 "/t").1,
    createdPackage pkgEx treeEx "/d" [] true "sha256" 0 "/t"⟩, ["/t"]⟩

/-- The result of the concrete unsigned, unhashed run over `treeEx` (the
EOF-positioned control stream contributes nothing to the archive). -/
def resC1 : CreateResult :=
  ⟨⟨copyfileobj (atEOF (make_control_tgz
        (createdPackage pkgEx treeEx "/d" [] false "sha256" 0 "/t") 0)) ++
      (make_data_tgz "/d" treeEx (apkFilters []) 0 "/t").1,
    createdPackage pkgEx treeEx "/d" [] false "sha256" 0 "/t"⟩, ["/t"]⟩

/-- The record of the concrete signed run over `treeEx`. -/
def pkgC3 : Package := createdPackage pkgEx treeEx "/d" [] false "sha256" 0 "/t"

/-- The result of the concrete signed run over `treeEx` with key 5. -/
def resC3 : CreateResult :=
  ⟨⟨sign_control (make_control_tgz pkgC3 0) 5 "k" 0 ++
      (make_data_tgz "/d" treeEx (apkFilters []) 0 "/t").1, pkgC3⟩, ["/t"]⟩

theorem le_length (k n : Nat) : (le k n).length = k := by
  induction k generalizing n with
  | zero => rfl
  | succ k ih => simp [le, ih]

theorem ld_le (k n : Nat) : ld (le k n) = n % 256 ^ k := by
  induction k generalizing n with
  | zero => simp [le, ld, Nat.mod_one]
  | succ k ih =>
    show n % 256 + 256 * ld (le k (n / 256)) = n % 256 ^ (k + 1)
    rw [ih, pow_succ', Nat.mod_mul]

theorem ld_le_of_lt {k n : Nat} (h : n < 256 ^ k) : ld (le k n) = n := by
  rw [ld_le, Nat.mod_eq_of_lt h]

theorem take_append_exact {l r : Bytes} {n : Nat} (h : l.length = n) : (l ++ r).take n = l := by
  subst h; exact List.take_left l r

theorem drop_append_exact {l r : Bytes} {n : Nat} (h : l.length = n) : (l ++ r).drop n = r := by
  subst h; exact List.drop_left l r

theorem nameField_length {s : String} (h : s.data.length ≤ 100) :
    (nameField s).length = 100 := by
  unfold nameField
  rw [List.length_append, List.length_map, List.length_replicate]
  have hs : s.length = s.data.length := rfl
  omega

theorem tarHeader_length {name : String} (h : name.data.length ≤ 100) (size : Nat) :
    (tarHeader name size).length = 512 := by
  simp [tarHeader, nameField_length h, le_length]

theorem takeWhile_append_all {p : Nat → Bool} {l : Bytes} (r : Bytes)
    (h : ∀ x ∈ l, p x = true) : (l ++ r).takeWhile p = l ++ r.takeWhile p := by
  induction l with
  | nil => simp
  | cons a l ih =>
    have ha : p a = true := h a (by simp)
    simp [List.takeWhile, ha]
    exact ih fun x hx => h x (by simp [hx])

theorem decName_nameField {s : String} (h0 : ∀ c ∈ s.data, c.toNat ≠ 0) :
    decName (nameField s) = s := by
  unfold decName nameField
  rw [takeWhile_append_all _ (by
    intro x hx
    rcases List.mem_map.mp hx with ⟨c, hc, rfl⟩
    simpa using h0 c hc)]
  rw [List.takeWhile_replicate]
  simp [List.map_map, Function.comp_def, Char.ofNat_toNat]

theorem tarEntryBytes_length {e : TarEntry} (h : e.name.data.length ≤ 100) :
    (tarEntryBytes e).length = 512 + (e.content.length + padLen e.content.length) := by
  simp [tarEntryBytes, tarHeader_length h]

theorem tarHeader_take100 {nm : String} (h100 : nm.data.length ≤ 100) (sz : Nat) :
    (tarHeader nm sz).take 100 = nameField nm := by
  unfold tarHeader
  simp only [List.append_assoc]
  exact take_append_exact (nameField_length h100)

theorem tarHeader_drop100_take12 {nm : String} (h100 : nm.data.length ≤ 100) (sz : Nat) :
    ((tarHeader nm sz).drop 100).take 12 = le 12 sz := by
  unfold tarHeader
  simp only [List.append_assoc]
  rw [drop_append_exact (nameField_length h100)]
  exact take_append_exact (le_length 12 sz)

theorem tarHeader_not_all_zero (nm : String) (sz : Nat) :
    (tarHeader nm sz).all (fun b => b == 0) = false := by
  rcases Bool.eq_false_or_eq_true ((tarHeader nm sz).all fun b => b == 0) with ht | ht
  · have hmem : 117 ∈ tarHeader nm sz := by
      unfold tarHeader
      simp
    have := List.all_eq_true.mp ht 117 hmem
    simp at this
  · exact ht

/-- Reading an empty stream yields no members. -/
theorem parseTar_nil : parseTar [] = some [] := by
  rw [parseTar]
  rw [dif_pos (show ([] : Bytes).length < 512 by norm_num)]
  rfl

/-- Reading a stream of zero bytes of at least one block yields no members
(the zero block is the end-of-archive marker). -/
theorem parseTar_zeros {n : Nat} (h : 512 ≤ n) :
    parseTar (List.replicate n 0) = some [] := by
  rw [parseTar]
  have h1 : ¬ (List.replicate n (0 : Nat)).length < 512 := by
    rw [List.length_replicate]; omega
  rw [dif_neg h1]
  have h2 : ((List.replicate n (0 : Nat)).take 512).all (fun b => b == 0) = true := by
    rw [List.all_eq_true]
    intro x hx
    have := List.mem_replicate.mp (List.mem_of_mem_take hx)
    simp [this.2]
  rw [if_pos h2]

/-- Reading one well-formed member followed by anything: the member is
recovered exactly and reading continues on the remainder. -/
theorem parseTar_entry {e : TarEntry} (rest : Bytes) (hwf : wfEntry e) :
    parseTar (tarEntryBytes e ++ rest) = (parseTar rest).map (fun es => e :: es) := by
  obtain ⟨h100, h0, hsz⟩ := hwf
  have hhl : (tarHeader e.name e.content.length).length = 512 := tarHeader_length h100 _
  rw [parseTar]
  rw [tarEntryBytes, List.append_assoc]
  set Rest := e.content ++ List.replicate (padLen e.content.length) 0 ++ rest with hRest
  have hbig : ¬ ((tarHeader e.name e.content.length ++ Rest).length < 512) := by
    rw [List.length_append, hhl]; omega
  rw [dif_neg hbig]
  rw [take_append_exact hhl, tarHeader_not_all_zero]
  simp only [Bool.false_eq_true, if_false]
  have htake100 : (tarHeader e.name e.content.length ++ Rest).take 100 =
      nameField e.name := by
    rw [List.take_append_of_le_length (by omega), tarHeader_take100 h100]
  have hdrop100 : ((tarHeader e.name e.content.length ++ Rest).drop 100).take 12 =
      le 12 e.content.length := by
    rw [List.drop_append_of_le_length (by omega),
      List.take_append_of_le_length (by
        rw [List.length_drop, hhl]; omega),
      tarHeader_drop100_take12 h100]
  have hdrop512 : (tarHeader e.name e.content.length ++ Rest).drop 512 = Rest :=
    drop_append_exact hhl
  rw [htake100, hdrop100, hdrop512, ld_le_of_lt hsz]
  have hbody : ¬ (Rest.length < e.content.length) := by
    rw [hRest, List.length_append, List.length_append]; omega
  rw [if_neg hbody]
  have htakeC : Rest.take e.content.length = e.content := by
    rw [hRest, List.append_assoc]
    exact take_append_exact rfl
  have hdropC : Rest.drop (e.content.length + padLen e.content.length) = rest := by
    rw [hRest]
    exact drop_append_exact (by simp)
  rw [htakeC, hdropC, decName_nameField h0]

/-- Reading a sequence of well-formed members followed by anything. -/
theorem parseTar_streamAppend {es : List TarEntry} (rest : Bytes)
    (hwf : ∀ e ∈ es, wfEntry e) :
    parseTar (tarStream es ++ rest) = (parseTar rest).map (fun tl => es ++ tl) := by
  induction es with
  | nil =>
    simp only [tarStream, List.map_nil, List.flatten_nil, List.nil_append]
    cases parseTar rest <;> rfl
  | cons e es ih =>
    have hsplit : tarStream (e :: es) ++ rest = tarEntryBytes e ++ (tarStream es ++ rest) := by
      simp [tarStream]
    rw [hsplit, parseTar_entry _ (hwf e (by simp)), ih (fun x hx => hwf x (by simp [hx]))]
    cases parseTar rest <;> rfl

/-- Reading a closed archive of well-formed members recovers exactly those
members. -/
theorem parseTar_closed {es : List TarEntry} (hwf : ∀ e ∈ es, wfEntry e) :
    parseTar (closeTar (tarStream es)) = some es := by
  rw [closeTar, List.append_assoc, ← List.replicate_add, parseTar_streamAppend _ hwf,
    parseTar_zeros (by omega)]
  simp

theorem gzipCompress_length (mtime : Nat) (data : Bytes) :
    (gzipCompress mtime data).length = data.length + 26 := by
  simp [gzipCompress, le_length]
  omega

/-- Decoding a stream that starts with one compressed member recovers that
member's data and continues with the rest of the stream. -/
theorem gunzipAll_member {data : Bytes} (mtime : Nat) (rest : Bytes)
    (hlen : data.length < 256 ^ 8) :
    gunzipAll (gzipCompress mtime data ++ rest) =
      (gunzipAll rest).map (fun tl => data ++ tl) := by
  rw [gzipCompress]
  show gunzipAll (31 :: 139 :: 8 :: 0 :: ((le 4 mtime ++ [0, 255] ++ le 8 data.length ++ data ++
    le 4 0 ++ le 4 data.length) ++ rest)) = _
  rw [gunzipAll]
  set R := (le 4 mtime ++ [0, 255] ++ le 8 data.length ++ data ++
    le 4 0 ++ le 4 data.length) ++ rest with hR
  have hRlen : R.length = 4 + 2 + 8 + data.length + 4 + 4 + rest.length := by
    rw [hR]
    simp [le_length]
    omega
  have h14 : ¬ (R.length < 14) := by omega
  rw [dif_neg h14]
  have hdrop6 : R.drop 6 = le 8 data.length ++ (data ++ (le 4 0 ++ (le 4 data.length ++ rest))) := by
    rw [hR]
    simp only [List.append_assoc]
    rw [← List.append_assoc (le 4 mtime) [0, 255]]
    exact drop_append_exact (by simp [le_length])
  have htake8 : (R.drop 6).take 8 = le 8 data.length := by
    rw [hdrop6]
    exact take_append_exact (le_length 8 _)
  have hdrop14 : R.drop 14 = data ++ (le 4 0 ++ (le 4 data.length ++ rest)) := by
    have : R.drop 14 = (R.drop 6).drop 8 := by
      rw [List.drop_drop]
    rw [this, hdrop6]
    exact drop_append_exact (le_length 8 _)
  rw [htake8, ld_le_of_lt hlen, hdrop14]
  have hbody : ¬ ((data ++ (le 4 0 ++ (le 4 data.length ++ rest))).length < data.length + 8) := by
    simp [le_length]
    omega
  rw [dif_neg hbody]
  have htakeD : (data ++ (le 4 0 ++ (le 4 data.length ++ rest))).take data.length = data :=
    take_append_exact rfl
  have hdropD : (data ++ (le 4 0 ++ (le 4 data.length ++ rest))).drop (data.length + 8) = rest := by
    rw [← List.append_assoc, ← List.append_assoc]
    exact drop_append_exact (by simp [le_length])
  rw [htakeD, hdropD]

theorem gunzipAll_nil : gunzipAll [] = some [] := by
  rw [gunzipAll]

/-- A single compressed member decodes on its own to exactly its input. -/
theorem gunzipAll_single {data : Bytes} (mtime : Nat) (hlen : data.length < 256 ^ 8) :
    gunzipAll (gzipCompress mtime data) = some data := by
  have := gunzipAll_member mtime [] hlen
  rw [List.append_nil] at this
  rw [this, gunzipAll_nil]
  simp

/-- Two independently compressed members concatenated decode to the
concatenation of their inputs. -/
theorem gunzipAll_pair {a b : Bytes} (t1 t2 : Nat)
    (ha : a.length < 256 ^ 8) (hb : b.length < 256 ^ 8) :
    gunzipAll (gzipCompress t1 a ++ gzipCompress t2 b) = some (a ++ b) := by
  rw [gunzipAll_member t1 _ ha, gunzipAll_single t2 hb]
  rfl

theorem bytesStr_strBytes (s : String) : bytesStr (strBytes s) = s := by
  unfold bytesStr strBytes
  rw [List.map_map]
  simp [Function.comp_def, Char.ofNat_toNat]

theorem decVal_decDigit (d : Nat) : decVal (decDigit d) = some (d % 10) := by
  unfold decDigit
  have h : d % 10 < 10 := Nat.mod_lt _ (by norm_num)
  set k := d % 10 with hk
  interval_cases k <;> rfl

theorem decDigit_ne_nl (d : Nat) : decDigit d ≠ '\n' := by
  unfold decDigit
  have h : d % 10 < 10 := Nat.mod_lt _ (by norm_num)
  set k := d % 10 with hk
  interval_cases k <;> decide

theorem natDecAux_ne_nl (fuel : Nat) : ∀ n, ∀ c ∈ natDecAux fuel n, c ≠ '\n' := by
  induction fuel with
  | zero => intro n c hc; cases hc
  | succ fuel ih =>
    intro n c hc
    rw [natDecAux] at hc
    by_cases h : n < 10
    · rw [if_pos h, List.mem_singleton] at hc
      rw [hc]
      exact decDigit_ne_nl n
    · rw [if_neg h] at hc
      rcases List.mem_append.mp hc with hdig | hone
      · exact ih (n / 10) c hdig
      · rw [List.mem_singleton] at hone
        rw [hone]
        exact decDigit_ne_nl (n % 10)

theorem natDec_ne_nl (n : Nat) : ∀ c ∈ natDec n, c ≠ '\n' :=
  natDecAux_ne_nl (n + 1) n

theorem decToNat_aux (fuel : Nat) : ∀ n, n < fuel → ∀ a : Nat,
    (natDecAux fuel n).foldl
      (fun acc c => acc.bind (fun x => (decVal c).map (fun d => x * 10 + d)))
      (some a) = some (a * 10 ^ (natDecAux fuel n).length + n) := by
  induction fuel with
  | zero => intro n hn; omega
  | succ fuel ih =>
    intro n hn a
    rw [natDecAux]
    by_cases h : n < 10
    · rw [if_pos h]
      simp [decVal_decDigit, Nat.mod_eq_of_lt h]
    · rw [if_neg h]
      have hdiv : n / 10 < fuel := by
        have h1 : n / 10 < n := Nat.div_lt_self (by omega) (by norm_num)
        omega
      rw [List.foldl_append, ih (n / 10) hdiv a]
      simp [decVal_decDigit]
      rw [pow_succ]
      have := Nat.div_add_mod n 10
      ring_nf
      omega

theorem decToNat_natDec (n : Nat) : decToNat (natDec n) = some n := by
  unfold decToNat natDec
  rw [decToNat_aux (n + 1) n (by omega) 0]
  simp

theorem readLine_append {v : List Char} (rest : List Char) (hv : ∀ c ∈ v, c ≠ '\n') :
    readLine (v ++ '\n' :: rest) = some (v, rest) := by
  induction v with
  | nil => simp [readLine]
  | cons c cs ih =>
    have hc : c ≠ '\n' := hv c (by simp)
    rw [List.cons_append]
    simp only [readLine, if_neg hc]
    rw [ih fun x hx => hv x (by simp [hx])]
    rfl

theorem dropPre_self (xs r : List Char) : dropPre xs (xs ++ r) = some r := by
  induction xs with
  | nil => rfl
  | cons c cs ih => simp [dropPre, ih]

theorem parseKV_line (k v : String) (rest : List Char) (hv : ∀ c ∈ v.data, c ≠ '\n') :
    parseKV k (kvLine k v ++ rest) = some (v, rest) := by
  unfold parseKV kvLine
  rw [List.append_assoc, dropPre_self]
  simp only [Option.some_bind]
  rw [List.append_assoc, List.singleton_append, readLine_append rest hv]
  rfl

theorem parseMulti_stop {k : String} {cs : List Char} (h : parseKV k cs = none) (fuel : Nat) :
    parseMulti k fuel cs = ([], cs) := by
  cases fuel with
  | zero => rfl
  | succ f => simp [parseMulti, h]

theorem parseMulti_build {k : String} (vs : List String) (rest : List Char)
    (hvs : ∀ v ∈ vs, ∀ c ∈ v.data, c ≠ '\n')
    (hrest : parseKV k rest = none) :
    ∀ fuel, ((vs.map (kvLine k)).flatten).length ≤ fuel →
    parseMulti k fuel ((vs.map (kvLine k)).flatten ++ rest) = (vs, rest) := by
  induction vs with
  | nil =>
    intro fuel _
    simpa using parseMulti_stop hrest fuel
  | cons v vs ih =>
    intro fuel hf
    rw [List.map_cons, List.flatten_cons] at hf ⊢
    match fuel with
    | 0 =>
      exfalso
      rw [List.length_append] at hf
      have : (kvLine k v).length = k.data.length + 2 + (v.data.length + 1) := by
        simp [kvLine]
        omega
      omega
    | f + 1 =>
      rw [List.append_assoc]
      simp only [parseMulti]
      rw [parseKV_line k v _ (hvs v (by simp))]
      dsimp only
      have hkv : 0 < (kvLine k v).length := by simp [kvLine]
      rw [ih (fun x hx => hvs x (by simp [hx])) f (by
        rw [List.length_append] at hf
        omega)]

/-- The `.PKGINFO` text of a well-formed record parses back to that record. -/
theorem from_pkginfo_to_pkginfo (p : Package) (hwf : wfPackage p) :
    from_pkginfo (to_pkginfo p) = some p := by
  obtain ⟨nm, ver, ar, de, ur, dep, prov, sz, dh⟩ := p
  obtain ⟨h1, h2, h3, h4, h5, h6, h7, h8⟩ := hwf
  have hsz : ∀ c ∈ (natToDec sz).data, c ≠ '\n' := natDec_ne_nl sz
  have hszdec : decToNat (natToDec sz).data = some sz := decToNat_natDec sz
  cases dh with
  | none =>
    have hdepstop : parseKV "depend"
        ((prov.map (kvLine "provide")).flatten ++ ([] : List Char)) = none := by
      rw [List.append_nil]
      cases prov with
      | nil => rfl
      | cons v vs => simp [parseKV, kvLine, dropPre]
    have hprovstop : parseKV "provide" ([] : List Char) = none := rfl
    unfold from_pkginfo to_pkginfo pkginfoChars
    try dsimp only
    rw [parseKV_line "name" nm _ h1]
    simp only [Option.some_bind]
    try dsimp only
    rw [parseKV_line "version" ver _ h2]
    simp only [Option.some_bind]
    try dsimp only
    rw [parseKV_line "arch" ar _ h3]
    simp only [Option.some_bind]
    try dsimp only
    rw [parseKV_line "description" de _ h4]
    simp only [Option.some_bind]
    try dsimp only
    rw [parseKV_line "url" ur _ h5]
    simp only [Option.some_bind]
    try dsimp only
    rw [parseKV_line "size" (natToDec sz) _ hsz]
    simp only [Option.some_bind]
    try dsimp only
    rw [hszdec]
    simp only [Option.some_bind]
    try dsimp only
    rw [parseMulti_build dep _ h6 hdepstop _ (by
      rw [List.length_append]
      omega)]
    try dsimp only
    rw [parseMulti_build prov _ h7 hprovstop _ (by
      rw [List.length_append]
      omega)]
    try dsimp only
    rw [if_pos rfl]
  | some h =>
    have hdh : wfValue h := h8
    have hdepstop : parseKV "depend"
        ((prov.map (kvLine "provide")).flatten ++ kvLine "data_hash" h) = none := by
      cases prov with
      | nil => simp [parseKV, kvLine, dropPre]
      | cons v vs => simp [parseKV, kvLine, dropPre]
    have hprovstop : parseKV "provide" (kvLine "data_hash" h) = none := by
      simp [parseKV, kvLine, dropPre]
    unfold from_pkginfo to_pkginfo pkginfoChars
    try dsimp only
    rw [parseKV_line "name" nm _ h1]
    simp only [Option.some_bind]
    try dsimp only
    rw [parseKV_line "version" ver _ h2]
    simp only [Option.some_bind]
    try dsimp only
    rw [parseKV_line "arch" ar _ h3]
    simp only [Option.some_bind]
    try dsimp only
    rw [parseKV_line "description" de _ h4]
    simp only [Option.some_bind]
    try dsimp only
    rw [parseKV_line "url" ur _ h5]
    simp only [Option.some_bind]
    try dsimp only
    rw [parseKV_line "size" (natToDec sz) _ hsz]
    simp only [Option.some_bind]
    try dsimp only
    rw [hszdec]
    simp only [Option.some_bind]
    try dsimp only
    rw [parseMulti_build dep _ h6 hdepstop _ (by
      rw [List.length_append]
      omega)]
    try dsimp only
    rw [parseMulti_build prov _ h7 hprovstop _ (by
      rw [List.length_append]
      omega)]
    try dsimp only
    rw [if_neg (show ¬ (kvLine "data_hash" h = []) by simp [kvLine])]
    rw [show kvLine "data_hash" h = kvLine "data_hash" h ++ [] by rw [List.append_nil]]
    rw [parseKV_line "data_hash" h [] hdh]
    simp only [Option.some_bind]
    try dsimp only
    simp

/-- A copy out of a stream standing at EOF transfers nothing. -/
theorem copyfileobj_atEOF (bs : Bytes) : copyfileobj (atEOF bs) = [] := by
  simp [copyfileobj, atEOF]

/-- A copy out of a rewound stream transfers the whole contents. -/
theorem copyfileobj_rewound (bs : Bytes) : copyfileobj (rewound bs) = bs := rfl

/-- A compressed member is never the empty byte string (its fixed header
alone is ten bytes). -/
theorem gzipCompress_ne_nil (mtime : Nat) (data : Bytes) :
    gzipCompress mtime data ≠ [] := by
  simp [gzipCompress]

/-- The compressed control segment built for a record is never empty. -/
theorem make_control_tgz_ne_nil (p : Package) (now : Nat) :
    make_control_tgz p now ≠ [] :=
  gzipCompress_ne_nil now _

theorem create_cases (package : Package) (datadir : String) (tree : List FSNode)
    (filters : List (String → Bool)) (sign cryptoAvail : Bool)
    (privkey : Option Nat) (pubkeyName : String) (data_hash : Bool)
    (hash_method : String) (now : Nat) (tmpPath : String) (r : CreateResult)
    (hok : APKFile.create package datadir tree filters sign cryptoAvail privkey
      pubkeyName data_hash hash_method now tmpPath = Except.ok r) :
    r.scratchRemaining = [tmpPath] ∧
    r.apk.package =
      createdPackage package tree datadir filters data_hash hash_method now tmpPath ∧
    ((sign = true ∧ cryptoAvail = true ∧ ∃ k, privkey = some k ∧
        r.apk.fileobj =
          sign_control (make_control_tgz
              (createdPackage package tree datadir filters data_hash hash_method now tmpPath)
              now) k pubkeyName now ++
            (make_data_tgz datadir tree (apkFilters filters) now tmpPath).1) ∨
     (sign = false ∧
        r.apk.fileobj =
          (make_data_tgz datadir tree (apkFilters filters) now tmpPath).1)) := by
  unfold APKFile.create at hok
  cases sign with
  | false =>
    simp only [if_false, Bool.false_eq_true, Except.map, Except.ok.injEq] at hok
    subst hok
    refine ⟨rfl, rfl, Or.inr ⟨rfl, ?_⟩⟩
    show copyfileobj (atEOF _) ++
      (make_data_tgz datadir tree (apkFilters filters) now tmpPath).1 =
      (make_data_tgz datadir tree (apkFilters filters) now tmpPath).1
    rw [copyfileobj_atEOF, List.nil_append]
  | true =>
    cases cryptoAvail with
    | false => simp [Except.map] at hok
    | true =>
      cases privkey with
      | none => simp [Except.map] at hok
      | some k =>
        simp only [if_true, Except.map, Except.ok.injEq] at hok
        subst hok
        exact ⟨rfl, rfl, Or.inl ⟨rfl, rfl, k, rfl, rfl⟩⟩

theorem tar_filter_eq_all (filters : List (String → Bool)) (path : String) :
    tar_filter filters path = true ↔ ∀ f ∈ filters, f path = true := by
  unfold tar_filter
  rw [List.all_eq_true]
  constructor
  · intro h f hf
    have := h (f path) (List.mem_map.mpr ⟨f, hf, rfl⟩)
    simpa using this
  · intro h b hb
    rcases List.mem_map.mp hb with ⟨f, hf, rfl⟩
    simpa using h f hf

/-- C4 (counterexample): with the default filter set, every installed filter
function returns True on the debug path of `treeDbg`, yet the archiver
excludes it — the opposite of "included iff ALL predicates return true".
And with an empty filter set nothing at all is admitted (`all([])` is True,
which `tarfile` reads as "exclude"), not everything. -/
theorem tar_filter_claim_counterexample :
    (∀ f ∈ apkFilters [], f "/d/usr/lib/debug/x" = true) ∧
    ("usr/lib/debug/x" ∉ (dataEntries "/d" treeDbg (apkFilters [])).map
      (fun e => e.name)) ∧
    tar_filter [] "/d/a" = true ∧
    dataEntries "/d" [FSNode.file "a" [1, 2, 3]] [] = [] := by
  refine ⟨?_, by decide, by decide, by decide⟩
  intro f hf
  simp only [apkFilters, List.nil_append, List.mem_singleton] at hf
  subst hf
  decide

/-- C4 (amended): `_tar_filter` is the conjunction of the registered filter
functions, but `tarfile.add` consults it as an EXCLUSION predicate: a
candidate contributes nothing to the payload exactly when all filter
functions return True on its path (it is admitted exactly when at least one
returns False), and the empty filter set excludes every candidate. -/
theorem tar_filter_exclusion_semantics (filters : List (String → Bool))
    (path arc : String) :
    (tar_filter filters path = true ↔ ∀ f ∈ filters, f path = true) ∧
    (∀ n : FSNode, tarAdd (tar_filter filters) path arc n = [] ↔
      tar_filter filters path = true) ∧
    tar_filter [] path = true := by
  refine ⟨tar_filter_eq_all filters path, ?_, rfl⟩
  intro n
  cases n with
  | file nm c =>
    rw [tarAdd]
    constructor
    · intro h
      by_cases hx : tar_filter filters path = true
      · exact hx
      · rw [if_neg hx] at h
        cases h
    · intro h
      rw [if_pos h]
  | dir nm children =>
    rw [tarAdd]
    constructor
    · intro h
      by_cases hx : tar_filter filters path = true
      · exact hx
      · rw [if_neg hx] at h
        cases h
    · intro h
      rw [if_pos h]

/-- C8: the `mkstemp` scratch file `_make_data_tgz` acquires for the
uncompressed tar is still on disk when the stage returns — on every run, the
concrete one included: the descriptor is closed by the `with` block but no
code path unlinks `pkg_data_path`. -/
theorem make_data_tgz_scratch_survives :
    (∀ (datadir : String) (tree : List FSNode) (filters : List (String → Bool))
      (now : Nat) (tmpPath : String),
      (make_data_tgz datadir tree filters now tmpPath).2 = [tmpPath]) ∧
    (make_data_tgz "/d" treeEx (apkFilters []) 0 "/tmp/apkkit-x.tar").2 =
      ["/tmp/apkkit-x.tar"] ∧
    ["/tmp/apkkit-x.tar"] ≠ ([] : List String) := by
  exact ⟨fun _ _ _ _ _ => rfl, rfl, by decide⟩

/-- C6 (counterexample): building `treeDbg` with the default filter set
writes installed size 8 — the debug file's five bytes included — although the
filter set admits only the three-byte `a` into the payload. -/
theorem create_size_counterexample :
    (APKFile.create pkgEx "/d" treeDbg [] false true none "k" false "sha256" 0
      "/t").map (fun r => r.apk.package.size) = Except.ok 8 ∧
    ((dataEntries "/d" treeDbg (apkFilters [])).map
      (fun e => e.content.length)).sum = 3 ∧
    (8 : Nat) ≠ 3 := by
  refine ⟨rfl, by decide, by decide⟩

/-- C6 (amended): the installed-size field the pipeline writes is
`recursive_size` of the whole source directory — a function of the directory
alone, computed independently of the archiver's traversal but also
independently of the Filter Set, so files the filters exclude are still
counted. -/
theorem create_size_is_recursive_size (package : Package) (datadir : String)
    (tree : List FSNode) (filters : List (String → Bool)) (sign cryptoAvail : Bool)
    (privkey : Option Nat) (pubkeyName : String) (data_hash : Bool)
    (hash_method : String) (now : Nat) (tmpPath : String) (r : CreateResult)
    (hok : APKFile.create package datadir tree filters sign cryptoAvail privkey
      pubkeyName data_hash hash_method now tmpPath = Except.ok r) :
    r.apk.package.size = recursive_size tree := by
  obtain ⟨-, hpkg, -⟩ := create_cases package datadir tree filters sign cryptoAvail
    privkey pubkeyName data_hash hash_method now tmpPath r hok
  rw [hpkg]
  unfold createdPackage
  cases data_hash <;> simp

/-- C6 (witness for the amended theorem). -/
theorem create_size_is_recursive_size_witness :
    APKFile.create pkgEx "/d" treeDbg [] false true none "k" false "sha256" 0 "/t" =
      Except.ok resC6 ∧ resC6.apk.package.size = recursive_size treeDbg :=
  ⟨rfl, create_size_is_recursive_size pkgEx "/d" treeDbg [] false true none "k"
    false "sha256" 0 "/t" resC6 rfl⟩

/-- C9 (counterexample): two runs over the same directory and record, one at
clock second 0 and one at clock second 1, produce different compressed
payload segments (the gzip header embeds the timestamp) and hence different
`data_hash` values. -/
theorem data_hash_differs_across_timestamps :
    (make_data_tgz "/d" treeEx (apkFilters []) 0 "/t").1 ≠
      (make_data_tgz "/d" treeEx (apkFilters []) 1 "/t").1 ∧
    (match APKFile.create pkgEx "/d" treeEx [] false true none "k" true "sha256" 0
        "/t" with
      | Except.ok r => r.apk.package.data_hash
      | Except.error _ => none) ≠
    (match APKFile.create pkgEx "/d" treeEx [] false true none "k" true "sha256" 1
        "/t" with
      | Except.ok r => r.apk.package.data_hash
      | Except.error _ => none) := by
  exact ⟨by decide, by decide⟩

/-- C9 (amended): with hashing enabled, the `data_hash` a run writes is a
function of the data directory, the filter set, the hash method and the gzip
header timestamp alone — two runs that observe the same clock second agree on
it (whatever the records and the signing configuration), which is the
idempotence the claim states provided the timestamps coincide. -/
theorem data_hash_deterministic (p1 p2 : Package) (datadir : String)
    (tree : List FSNode) (filters : List (String → Bool))
    (sign1 sign2 crypto1 crypto2 : Bool) (key1 key2 : Option Nat)
    (pub1 pub2 : String) (hash_method : String) (now : Nat) (tmpPath : String)
    (r1 r2 : CreateResult)
    (h1 : APKFile.create p1 datadir tree filters sign1 crypto1 key1 pub1 true
      hash_method now tmpPath = Except.ok r1)
    (h2 : APKFile.create p2 datadir tree filters sign2 crypto2 key2 pub2 true
      hash_method now tmpPath = Except.ok r2) :
    r1.apk.package.data_hash = r2.apk.package.data_hash := by
  obtain ⟨-, hp1, -⟩ := create_cases p1 datadir tree filters sign1 crypto1 key1 pub1
    true hash_method now tmpPath r1 h1
  obtain ⟨-, hp2, -⟩ := create_cases p2 datadir tree filters sign2 crypto2 key2 pub2
    true hash_method now tmpPath r2 h2
  rw [hp1, hp2]
  unfold createdPackage
  simp

/-- C9 (witness for the amended theorem). -/
theorem data_hash_deterministic_witness :
    APKFile.create pkgEx "/d" treeEx [] false true none "k" true "sha256" 3 "/t" =
      Except.ok resC9a ∧
    APKFile.create { pkgEx with name := "other" } "/d" treeEx [] false true none
      "k2" true "sha256" 3 "/t" = Except.ok resC9b ∧
    resC9a.apk.package.data_hash = resC9b.apk.package.data_hash :=
  ⟨rfl, rfl, data_hash_deterministic pkgEx { pkgEx with name := "other" } "/d"
    treeEx [] false false true true none none "k" "k2" "sha256" 3 "/t" resC9a
    resC9b rfl rfl⟩

/-- C7: when signing is requested it either happens or the build fails — a
missing cryptography backend or an unloadable key surfaces as an error (no
archive is returned), and every archive a signed run does return carries the
signature segment. -/
theorem signing_never_silently_skipped (package : Package) (datadir : String)
    (tree : List FSNode) (filters : List (String → Bool)) (sign cryptoAvail : Bool)
    (privkey : Option Nat) (pubkeyName : String) (data_hash : Bool)
    (hash_method : String) (now : Nat) (tmpPath : String) :
    (sign = true → cryptoAvail = false →
      APKFile.create package datadir tree filters sign cryptoAvail privkey
        pubkeyName data_hash hash_method now tmpPath =
        Except.error BuildError.backendUnavailable) ∧
    (sign = true → cryptoAvail = true → privkey = none →
      APKFile.create package datadir tree filters sign cryptoAvail privkey
        pubkeyName data_hash hash_method now tmpPath =
        Except.error BuildError.keyUnavailable) ∧
    (∀ r, APKFile.create package datadir tree filters sign cryptoAvail privkey
        pubkeyName data_hash hash_method now tmpPath = Except.ok r → sign = true →
      cryptoAvail = true ∧ ∃ k, privkey = some k ∧
        r.apk.fileobj =
          sign_control (make_control_tgz r.apk.package now) k pubkeyName now ++
            (make_data_tgz datadir tree (apkFilters filters) now tmpPath).1) := by
  refine ⟨?_, ?_, ?_⟩
  · intro hs hc
    subst hs
    subst hc
    rfl
  · intro hs hc hk
    subst hs
    subst hc
    subst hk
    rfl
  · intro r hok hs
    obtain ⟨-, hpkg, hcase⟩ := create_cases package datadir tree filters sign
      cryptoAvail privkey pubkeyName data_hash hash_method now tmpPath r hok
    rcases hcase with ⟨-, hcrypto, k, hkey, hfile⟩ | ⟨hfalse, -⟩
    · exact ⟨hcrypto, k, hkey, by rw [hfile, hpkg]⟩
    · rw [hs] at hfalse
      cases hfalse

/-- C7 (witness). -/
theorem signing_never_silently_skipped_witness :
    APKFile.create pkgEx "/d" treeEx [] true false none "k" true "sha256" 0 "/t" =
      Except.error BuildError.backendUnavailable :=
  (signing_never_silently_skipped pkgEx "/d" treeEx [] true false none "k" true
    "sha256" 0 "/t").1 rfl rfl

/-- C10: a `create` run touches only the installed-size field (always) and
the payload-hash field (only when hashing is requested); every other field of
the supplied record is unchanged, and the returned `APKFile` is built by
handing that same record to `__init__` — it is never re-parsed from the
archive. -/
theorem create_frame (package : Package) (datadir : String) (tree : List FSNode)
    (filters : List (String → Bool)) (sign cryptoAvail : Bool)
    (privkey : Option Nat) (pubkeyName : String) (data_hash : Bool)
    (hash_method : String) (now : Nat) (tmpPath : String) (r : CreateResult)
    (hok : APKFile.create package datadir tree filters sign cryptoAvail privkey
      pubkeyName data_hash hash_method now tmpPath = Except.ok r) :
    r.apk.package.name = package.name ∧
    r.apk.package.version = package.version ∧
    r.apk.package.arch = package.arch ∧
    r.apk.package.description = package.description ∧
    r.apk.package.url = package.url ∧
    r.apk.package.depends = package.depends ∧
    r.apk.package.provides = package.provides ∧
    r.apk.package.size = recursive_size tree ∧
    (data_hash = true → r.apk.package.data_hash = some (hexdigest hash_method
      (make_data_tgz datadir tree (apkFilters filters) now tmpPath).1)) ∧
    (data_hash = false → r.apk.package.data_hash = package.data_hash) ∧
    APKFile.init r.apk.fileobj (some r.apk.package) = some r.apk := by
  have hinit : APKFile.init r.apk.fileobj (some r.apk.package) = some r.apk := rfl
  obtain ⟨-, hpkg, -⟩ := create_cases package datadir tree filters sign cryptoAvail
    privkey pubkeyName data_hash hash_method now tmpPath r hok
  refine ⟨?_, ?_, ?_, ?_, ?_, ?_, ?_, ?_, ?_, ?_, hinit⟩ <;>
    · rw [hpkg]
      unfold createdPackage
      cases data_hash <;> simp

/-- C10 (witness). -/
theorem create_frame_witness :
    APKFile.create pkgEx "/d" treeEx [] false true none "k" true "sha256" 0 "/t" =
      Except.ok resC10 ∧
    (resC10.apk.package.name = pkgEx.name ∧
     resC10.apk.package.version = pkgEx.version ∧
     resC10.apk.package.arch = pkgEx.arch ∧
     resC10.apk.package.description = pkgEx.description ∧
     resC10.apk.package.url = pkgEx.url ∧
     resC10.apk.package.depends = pkgEx.depends ∧
     resC10.apk.package.provides = pkgEx.provides ∧
     resC10.apk.package.size = recursive_size treeEx ∧
     (true = true → resC10.apk.package.data_hash = some (hexdigest "sha256"
       (make_data_tgz "/d" treeEx (apkFilters []) 0 "/t").1)) ∧
     (true = false → resC10.apk.package.data_hash = pkgEx.data_hash) ∧
     APKFile.init resC10.apk.fileobj (some resC10.apk.package) = some resC10.apk) :=
  ⟨rfl, create_frame pkgEx "/d" treeEx [] false true none "k" true "sha256" 0 "/t"
    resC10 rfl⟩

/-- C2 (code bug): with hashing enabled the recorded `data_hash` is indeed
the digest of exactly the compressed payload segment — never of the
uncompressed payload tar — but the placement the claim states fails on the
unsigned path: `_make_control_tgz` hands its stream back positioned at EOF
and the unsigned branch never rewinds it before the copy, so the digested
bytes make up the ENTIRE archive (its first and only member); they cannot
stand as a second member after any nonempty metadata segment. -/
theorem data_hash_digests_entire_archive (package : Package) (datadir : String)
    (tree : List FSNode) (filters : List (String → Bool)) (cryptoAvail : Bool)
    (privkey : Option Nat) (pubkeyName : String) (hash_method : String) (now : Nat)
    (tmpPath : String) (r : CreateResult)
    (hok : APKFile.create package datadir tree filters false cryptoAvail privkey
      pubkeyName true hash_method now tmpPath = Except.ok r) :
    r.apk.package.data_hash = some (hexdigest hash_method
      (gzipCompress now (abuild_tar_hash (dataTarBytes datadir tree
        (apkFilters filters))))) ∧
    r.apk.fileobj =
      gzipCompress now (abuild_tar_hash (dataTarBytes datadir tree
        (apkFilters filters))) ∧
    ∀ metaSeg : Bytes, metaSeg ≠ [] →
      r.apk.fileobj ≠ metaSeg ++
        gzipCompress now (abuild_tar_hash (dataTarBytes datadir tree
          (apkFilters filters))) := by
  obtain ⟨-, hpkg, hcase⟩ := create_cases package datadir tree filters false
    cryptoAvail privkey pubkeyName true hash_method now tmpPath r hok
  have hdh : r.apk.package.data_hash = some (hexdigest hash_method
      (gzipCompress now (abuild_tar_hash (dataTarBytes datadir tree
        (apkFilters filters))))) := by
    rw [hpkg]
    unfold createdPackage
    simp [make_data_tgz]
  rcases hcase with ⟨hfalse, -⟩ | ⟨-, hfile⟩
  · cases hfalse
  · have hfile2 : r.apk.fileobj =
        gzipCompress now (abuild_tar_hash (dataTarBytes datadir tree
          (apkFilters filters))) := hfile
    refine ⟨hdh, hfile2, ?_⟩
    intro metaSeg hm hcontra
    rw [hfile2] at hcontra
    have hlen := congrArg List.length hcontra
    rw [List.length_append] at hlen
    have h0 : metaSeg.length = 0 := by omega
    exact hm (List.length_eq_zero.mp h0)

/-- C2 (witness): the concrete unsigned hashing run over `treeEx`. -/
theorem data_hash_digests_entire_archive_witness :
    APKFile.create pkgEx "/d" treeEx [] false true none "k" true "sha256" 0 "/t" =
      Except.ok resC10 ∧
    (resC10.apk.package.data_hash = some (hexdigest "sha256"
        (gzipCompress 0 (abuild_tar_hash (dataTarBytes "/d" treeEx
          (apkFilters []))))) ∧
     resC10.apk.fileobj =
       gzipCompress 0 (abuild_tar_hash (dataTarBytes "/d" treeEx
         (apkFilters []))) ∧
     ∀ metaSeg : Bytes, metaSeg ≠ [] →
       resC10.apk.fileobj ≠ metaSeg ++
         gzipCompress 0 (abuild_tar_hash (dataTarBytes "/d" treeEx
           (apkFilters [])))) :=
  ⟨rfl, data_hash_digests_entire_archive pkgEx "/d" treeEx [] true none "k"
    "sha256" 0 "/t" resC10 rfl⟩

theorem rsaSign_length (key : Nat) (data : Bytes) :
    (rsaSign key data).length = 4 + data.length := by
  simp [rsaSign, le_length]

theorem tarEntryBytes_length_content_eq (n : String) (c1 c2 : Bytes)
    (h : c1.length = c2.length) :
    (tarEntryBytes ⟨n, c1⟩).length = (tarEntryBytes ⟨n, c2⟩).length := by
  simp [tarEntryBytes, tarHeader, h]

/-- C1 (code bug): the claim's two-segment layout fails on the unsigned
path.  `_make_control_tgz` hands its stream back positioned at EOF and the
unsigned branch of `create` never rewinds it, so the
`shutil.copyfileobj(controlgz, combined)` copy transfers nothing of it:
every archive an unsigned run returns is the compressed payload segment
ALONE, even though the compressed metadata segment built for the run is
nonempty, and the archive therefore differs from the metadata-then-payload
concatenation the claim prescribes (and which the signed path, whose
stream is rewound, does produce). -/
theorem archive_missing_metadata_segment (package : Package) (datadir : String)
    (tree : List FSNode) (filters : List (String → Bool)) (cryptoAvail : Bool)
    (privkey : Option Nat) (pubkeyName : String) (data_hash : Bool)
    (hash_method : String) (now : Nat) (tmpPath : String) (r : CreateResult)
    (hok : APKFile.create package datadir tree filters false cryptoAvail privkey
      pubkeyName data_hash hash_method now tmpPath = Except.ok r) :
    r.apk.fileobj =
      (make_data_tgz datadir tree (apkFilters filters) now tmpPath).1 ∧
    make_control_tgz r.apk.package now ≠ [] ∧
    r.apk.fileobj ≠
      make_control_tgz r.apk.package now ++
        (make_data_tgz datadir tree (apkFilters filters) now tmpPath).1 := by
  obtain ⟨-, hpkg, hcase⟩ := create_cases package datadir tree filters false
    cryptoAvail privkey pubkeyName data_hash hash_method now tmpPath r hok
  rcases hcase with ⟨hfalse, -⟩ | ⟨-, hfile⟩
  · cases hfalse
  · refine ⟨hfile, make_control_tgz_ne_nil _ now, ?_⟩
    intro hcontra
    rw [hfile] at hcontra
    have hlen := congrArg List.length hcontra
    rw [List.length_append] at hlen
    have h0 : (make_control_tgz r.apk.package now).length = 0 := by omega
    exact make_control_tgz_ne_nil r.apk.package now (List.length_eq_zero.mp h0)

theorem closeTar_length (bs : Bytes) :
    (closeTar bs).length =
      bs.length + 1024 + ((10240 - (bs.length + 1024) % 10240) % 10240) := by
  rw [closeTar, List.length_append, List.length_append, List.length_replicate,
    List.length_replicate]

theorem tarStream_length (es : List TarEntry) :
    (tarStream es).length = (es.map (fun e => (tarEntryBytes e).length)).sum := by
  simp [tarStream, List.length_flatten, Function.comp_def]

theorem tarEntryBytes_length_explicit (nm : String) (c : Bytes)
    (h : nm.data.length ≤ 100) :
    (tarEntryBytes ⟨nm, c⟩).length = 512 + (c.length + padLen c.length) :=
  tarEntryBytes_length h

/-- The payload tar of `treeEx` under the default filter set is one record of
10240 bytes. -/
theorem dataTar_treeEx_length :
    (dataTarBytes "/d" treeEx (apkFilters [])).length = 10240 := by
  rw [dataTarBytes, show dataEntries "/d" treeEx (apkFilters []) =
    [⟨"bin/", []⟩, ⟨"bin/hello", [104, 105, 33]⟩] from by decide]
  rw [closeTar_length, tarStream_length]
  rw [List.map_cons, List.map_cons, List.map_nil]
  rw [tarEntryBytes_length_explicit "bin/" [] (by decide),
    tarEntryBytes_length_explicit "bin/hello" [104, 105, 33] (by decide)]
  decide

/-- C1 (witness): the concrete unsigned run over `treeEx`. -/
theorem archive_missing_metadata_segment_witness :
    APKFile.create pkgEx "/d" treeEx [] false true none "k" false "sha256" 0 "/t" =
      Except.ok resC1 ∧
    (resC1.apk.fileobj = (make_data_tgz "/d" treeEx (apkFilters []) 0 "/t").1 ∧
     make_control_tgz resC1.apk.package 0 ≠ [] ∧
     resC1.apk.fileobj ≠
       make_control_tgz resC1.apk.package 0 ++
         (make_data_tgz "/d" treeEx (apkFilters []) 0 "/t").1) :=
  ⟨rfl, archive_missing_metadata_segment pkgEx "/d" treeEx [] true none "k" false
    "sha256" 0 "/t" resC1 rfl⟩

/-- C3: in every signed build the archive is the signature member's
compressed stream, then the compressed control stream, then the payload; the
bytes fed to the signer are `make_control_tgz` — the metadata segment exactly
as it stood BEFORE the signature member was injected, so the member is never
part of what it signs — and decompressing the metadata segment yields the
signature member followed by the `.PKGINFO` member, i.e. the signature sits
inside the metadata segment, before everything that follows it (the only
end-of-archive marker of the stream is written at the end of the payload
tar). -/
theorem signature_over_preinjection_segment (package : Package) (datadir : String)
    (tree : List FSNode) (filters : List (String → Bool)) (cryptoAvail : Bool)
    (privkey : Option Nat) (pubkeyName : String) (data_hash : Bool)
    (hash_method : String) (now : Nat) (tmpPath : String) (r : CreateResult)
    (hok : APKFile.create package datadir tree filters true cryptoAvail privkey
      pubkeyName data_hash hash_method now tmpPath = Except.ok r)
    (hc : (tarEntryBytes ⟨".PKGINFO", strBytes (to_pkginfo r.apk.package)⟩).length
      < 256 ^ 8)
    (hs : (tarEntryBytes ⟨".SIGN.RSA." ++ pubkeyName,
      rsaSign 0 (make_control_tgz r.apk.package now)⟩).length < 256 ^ 8) :
    ∃ k, privkey = some k ∧
      r.apk.fileobj =
        (gzipCompress now (tarEntryBytes ⟨".SIGN.RSA." ++ pubkeyName,
            rsaSign k (make_control_tgz r.apk.package now)⟩) ++
          make_control_tgz r.apk.package now) ++
        (make_data_tgz datadir tree (apkFilters filters) now tmpPath).1 ∧
      gunzipAll (gzipCompress now (tarEntryBytes ⟨".SIGN.RSA." ++ pubkeyName,
          rsaSign k (make_control_tgz r.apk.package now)⟩) ++
        make_control_tgz r.apk.package now) =
        some (tarEntryBytes ⟨".SIGN.RSA." ++ pubkeyName,
            rsaSign k (make_control_tgz r.apk.package now)⟩ ++
          tarEntryBytes ⟨".PKGINFO", strBytes (to_pkginfo r.apk.package)⟩) := by
  obtain ⟨-, hpkg, hcase⟩ := create_cases package datadir tree filters true
    cryptoAvail privkey pubkeyName data_hash hash_method now tmpPath r hok
  rw [← hpkg] at hcase
  rcases hcase with ⟨-, -, k, hkey, hfile⟩ | ⟨hfalse, -⟩
  · have hsiglen : (tarEntryBytes ⟨".SIGN.RSA." ++ pubkeyName,
        rsaSign k (make_control_tgz r.apk.package now)⟩).length < 256 ^ 8 := by
      rw [tarEntryBytes_length_content_eq (".SIGN.RSA." ++ pubkeyName)
        (rsaSign k (make_control_tgz r.apk.package now))
        (rsaSign 0 (make_control_tgz r.apk.package now))
        (by rw [rsaSign_length, rsaSign_length])]
      exact hs
    refine ⟨k, hkey, hfile, ?_⟩
    show gunzipAll (gzipCompress now _ ++ make_control_tgz r.apk.package now) = _
    exact gunzipAll_pair now now hsiglen hc
  · cases hfalse

/-- C3 (witness). -/
theorem signature_over_preinjection_segment_witness :
    APKFile.create pkgEx "/d" treeEx [] true true (some 5) "k" false "sha256" 0
      "/t" = Except.ok resC3 ∧
    (∃ k, (some 5 : Option Nat) = some k ∧
      resC3.apk.fileobj =
        (gzipCompress 0 (tarEntryBytes ⟨".SIGN.RSA." ++ "k",
            rsaSign k (make_control_tgz resC3.apk.package 0)⟩) ++
          make_control_tgz resC3.apk.package 0) ++
        (make_data_tgz "/d" treeEx (apkFilters []) 0 "/t").1 ∧
      gunzipAll (gzipCompress 0 (tarEntryBytes ⟨".SIGN.RSA." ++ "k",
          rsaSign k (make_control_tgz resC3.apk.package 0)⟩) ++
        make_control_tgz resC3.apk.package 0) =
        some (tarEntryBytes ⟨".SIGN.RSA." ++ "k",
            rsaSign k (make_control_tgz resC3.apk.package 0)⟩ ++
          tarEntryBytes ⟨".PKGINFO", strBytes (to_pkginfo resC3.apk.package)⟩)) :=
  ⟨rfl, signature_over_preinjection_segment pkgEx "/d" treeEx [] true (some 5) "k"
    false "sha256" 0 "/t" resC3 rfl
    (by
      rw [tarEntryBytes_length_explicit ".PKGINFO"
        (strBytes (to_pkginfo resC3.apk.package)) (by decide)]
      decide)
    (by
      rw [tarEntryBytes_length_explicit (".SIGN.RSA." ++ "k")
        (rsaSign 0 (make_control_tgz resC3.apk.package 0)) (by decide)]
      rw [rsaSign_length]
      rw [show make_control_tgz resC3.apk.package 0 = gzipCompress 0 (tarEntryBytes
        ⟨".PKGINFO", strBytes (to_pkginfo resC3.apk.package)⟩) from rfl]
      rw [gzipCompress_length]
      rw [tarEntryBytes_length_explicit ".PKGINFO"
        (strBytes (to_pkginfo resC3.apk.package)) (by decide)]
      decide)⟩

theorem wfNode_name {L : Nat} {n : FSNode} (h : wfNode L n = true) :
    ∀ ch ∈ n.name.data, ch.toNat ≠ 0 := by
  cases n with
  | file nm c =>
    rw [wfNode, Bool.and_eq_true, Bool.and_eq_true] at h
    intro ch hch
    have := List.all_eq_true.mp h.1.1 ch hch
    simpa using this
  | dir nm children =>
    rw [wfNode, Bool.and_eq_true, Bool.and_eq_true] at h
    intro ch hch
    have := List.all_eq_true.mp h.1.1 ch hch
    simpa using this

theorem arc_child_data (arc nm : String) :
    (arc ++ "/" ++ nm).data = arc.data ++ ('/' :: nm.data) := by
  rw [String.data_append, String.data_append]
  simp

mutual

theorem tarAdd_wfEntry (excl : String → Bool) :
    ∀ (path arc : String) (node : FSNode),
    (∀ ch ∈ arc.data, ch.toNat ≠ 0) →
    wfNode arc.data.length node = true →
    ∀ e ∈ tarAdd excl path arc node, wfEntry e
  | path, arc, FSNode.file nm c, h0, hwf, e, he => by
    rw [tarAdd] at he
    rw [wfNode, Bool.and_eq_true, Bool.and_eq_true] at hwf
    by_cases hx : excl path
    · rw [if_pos hx] at he
      cases he
    · rw [if_neg hx, List.mem_singleton] at he
      subst he
      refine ⟨by simpa using hwf.1.2, h0, by simpa using hwf.2⟩
  | path, arc, FSNode.dir nm children, h0, hwf, e, he => by
    rw [tarAdd] at he
    rw [wfNode, Bool.and_eq_true, Bool.and_eq_true] at hwf
    by_cases hx : excl path
    · rw [if_pos hx] at he
      cases he
    · rw [if_neg hx, List.mem_cons] at he
      rcases he with he | he
      · subst he
        refine ⟨?_, ?_, by simp⟩
        · have hlen : ((arc ++ "/").data).length = arc.data.length + 1 := by
            rw [String.data_append]
            simp
          show ((arc ++ "/").data).length ≤ 100
          rw [hlen]
          have := hwf.1.2
          simp only [decide_eq_true_eq] at this
          omega
        · intro ch hch
          rw [String.data_append, List.mem_append] at hch
          rcases hch with hch | hch
          · exact h0 ch hch
          · have hd : ("/" : String).data = ['/'] := rfl
            rw [hd, List.mem_singleton] at hch
            rw [hch]
            decide
      · exact tarAddList_wfEntry excl path arc children h0 hwf.2 e he

theorem tarAddList_wfEntry (excl : String → Bool) :
    ∀ (path arc : String) (children : List FSNode),
    (∀ ch ∈ arc.data, ch.toNat ≠ 0) →
    wfNodeList (arc.data.length + 1) children = true →
    ∀ e ∈ tarAddList excl path arc children, wfEntry e
  | _, _, [], _, _, e, he => by
    rw [tarAddList] at he
    cases he
  | path, arc, n :: ns, h0, hwf, e, he => by
    rw [tarAddList] at he
    rw [wfNodeList, Bool.and_eq_true] at hwf
    rw [List.mem_append] at he
    rcases he with he | he
    · have h0c : ∀ ch ∈ (arc ++ "/" ++ n.name).data, ch.toNat ≠ 0 := by
        rw [arc_child_data]
        intro ch hch
        rw [List.mem_append] at hch
        rcases hch with hch | hch
        · exact h0 ch hch
        · rw [List.mem_cons] at hch
          rcases hch with hch | hch
          · rw [hch]
            decide
          · exact wfNode_name hwf.1 ch hch
      have hwfc : wfNode (arc ++ "/" ++ n.name).data.length n = true := by
        rw [arc_child_data]
        simp only [List.length_append, List.length_cons]
        have : arc.data.length + (n.name.data.length + 1) =
            arc.data.length + 1 + n.name.data.length := by omega
        rw [this]
        exact hwf.1
      exact tarAdd_wfEntry excl (path ++ "/" ++ n.name) (arc ++ "/" ++ n.name) n
        h0c hwfc e he
    · exact tarAddList_wfEntry excl path arc ns h0 hwf.2 e he

end

mutual

theorem tarAdd_name_pre (excl : String → Bool) :
    ∀ (path arc : String) (node : FSNode),
    ∀ e ∈ tarAdd excl path arc node, ∃ s, e.name.data = arc.data ++ s
  | path, arc, FSNode.file nm c, e, he => by
    rw [tarAdd] at he
    by_cases hx : excl path
    · rw [if_pos hx] at he
      cases he
    · rw [if_neg hx, List.mem_singleton] at he
      subst he
      exact ⟨[], by simp⟩
  | path, arc, FSNode.dir nm children, e, he => by
    rw [tarAdd] at he
    by_cases hx : excl path
    · rw [if_pos hx] at he
      cases he
    · rw [if_neg hx, List.mem_cons] at he
      rcases he with he | he
      · subst he
        exact ⟨['/'], by rw [String.data_append]⟩
      · obtain ⟨s, hs⟩ := tarAddList_name_pre excl path arc children e he
        exact ⟨s, hs⟩

theorem tarAddList_name_pre (excl : String → Bool) :
    ∀ (path arc : String) (children : List FSNode),
    ∀ e ∈ tarAddList excl path arc children, ∃ s, e.name.data = arc.data ++ s
  | _, _, [], e, he => by
    rw [tarAddList] at he
    cases he
  | path, arc, n :: ns, e, he => by
    rw [tarAddList] at he
    rw [List.mem_append] at he
    rcases he with he | he
    · obtain ⟨s, hs⟩ := tarAdd_name_pre excl (path ++ "/" ++ n.name)
        (arc ++ "/" ++ n.name) n e he
      rw [arc_child_data, List.append_assoc] at hs
      exact ⟨_, hs⟩
    · exact tarAddList_name_pre excl path arc ns e he

end

/-- Every payload member of a well-formed tree is a well-formed tar member. -/
theorem dataEntries_wfEntry (datadir : String) (tree : List FSNode)
    (filters : List (String → Bool))
    (htree : ∀ n ∈ globStar tree, wfNode n.name.data.length n = true) :
    ∀ e ∈ dataEntries datadir tree filters, wfEntry e := by
  intro e he
  rw [dataEntries, List.mem_flatten] at he
  obtain ⟨l, hl, hel⟩ := he
  rw [List.mem_map] at hl
  obtain ⟨n, hn, rfl⟩ := hl
  exact tarAdd_wfEntry (tar_filter filters) (datadir ++ "/" ++ n.name) n.name n
    (wfNode_name (htree n hn)) (htree n hn) e hel

/-- The glob pattern `*` admits no name that begins with a dot. -/
theorem globStar_head {tree : List FSNode} {n : FSNode} (h : n ∈ globStar tree) :
    (n.name.data.head? == some '.') = false := by
  rw [globStar, List.mem_filter] at h
  have := h.2
  simp only [Bool.not_eq_eq_eq_not, Bool.not_true] at this
  exact this

/-- No payload member is named `.PKGINFO`: each member name extends a
top-level glob match, whose first character is not a dot. -/
theorem dataEntries_not_pkginfo (datadir : String) (tree : List FSNode)
    (filters : List (String → Bool))
    (hne : ∀ n ∈ globStar tree, n.name.data ≠ []) :
    ∀ e ∈ dataEntries datadir tree filters, e.name ≠ ".PKGINFO" := by
  intro e he
  rw [dataEntries, List.mem_flatten] at he
  obtain ⟨l, hl, hel⟩ := he
  rw [List.mem_map] at hl
  obtain ⟨n, hn, rfl⟩ := hl
  obtain ⟨s, hs⟩ := tarAdd_name_pre (tar_filter filters) (datadir ++ "/" ++ n.name)
    n.name n e hel
  intro heq
  have hdata := congrArg String.data heq
  rw [hs] at hdata
  obtain ⟨c, cs, hcons⟩ : ∃ c cs, n.name.data = c :: cs := by
    cases hcase : n.name.data with
    | nil => exact absurd hcase (hne n hn)
    | cons c cs => exact ⟨c, cs, rfl⟩
  have hhd := globStar_head hn
  rw [hcons] at hhd hdata
  simp only [List.head?] at hhd
  have hcdot : ¬ (c = '.') := by
    intro hcd
    rw [hcd] at hhd
    simp at hhd
  rw [List.cons_append] at hdata
  have : c = '.' := by
    have := congrArg List.head? hdata
    simp [List.head?] at this
    exact this
  exact hcdot this

/-- A filter for `.PKGINFO` over members that sandwich the single genuine
`.PKGINFO` member keeps exactly that member. -/
theorem filter_pkginfo_single (l1 l2 : List TarEntry) (e : TarEntry)
    (h1 : ∀ x ∈ l1, x.name ≠ ".PKGINFO") (h2 : ∀ x ∈ l2, x.name ≠ ".PKGINFO")
    (he : e.name = ".PKGINFO") :
    (l1 ++ e :: l2).filter (fun x => x.name == ".PKGINFO") = [e] := by
  rw [List.filter_append]
  rw [List.filter_eq_nil.mpr (by
    intro x hx
    simpa using h1 x hx)]
  rw [List.nil_append, List.filter_cons]
  rw [if_pos (by simpa using he)]
  rw [List.filter_eq_nil.mpr (by
    intro x hx
    simpa using h2 x hx)]

theorem hexChar_ne_nl (n : Nat) : hexChar n ≠ '\n' := by
  unfold hexChar
  have h : n % 16 < 16 := Nat.mod_lt _ (by norm_num)
  set k := n % 16 with hk
  interval_cases k <;> decide

/-- A digest string never contains a newline when the algorithm name does
not. -/
theorem hexdigest_wfValue (alg : String) (data : Bytes) (halg : wfValue alg) :
    wfValue (hexdigest alg data) := by
  intro c hc
  replace hc : c ∈ alg.data ++ '-' :: (data.map
    (fun b => [hexChar (b / 16 % 16), hexChar (b % 16)])).flatten := hc
  rw [List.mem_append] at hc
  rcases hc with hc | hc
  · exact halg c hc
  · rw [List.mem_cons] at hc
    rcases hc with hc | hc
    · rw [hc]
      decide
    · rw [List.mem_flatten] at hc
      obtain ⟨l, hl, hcl⟩ := hc
      rw [List.mem_map] at hl
      obtain ⟨b, -, rfl⟩ := hl
      rw [List.mem_cons] at hcl
      rcases hcl with hcl | hcl
      · rw [hcl]
        exact hexChar_ne_nl _
      · rw [List.mem_singleton] at hcl
        rw [hcl]
        exact hexChar_ne_nl _

/-- The record the pipeline serializes is well-formed whenever the input
record and the hash method name are. -/
theorem createdPackage_wf (package : Package) (tree : List FSNode)
    (datadir : String) (filters : List (String → Bool)) (data_hash : Bool)
    (hash_method : String) (now : Nat) (tmpPath : String)
    (hpkg : wfPackage package) (hmeth : wfValue hash_method) :
    wfPackage (createdPackage package tree datadir filters data_hash hash_method
      now tmpPath) := by
  obtain ⟨h1, h2, h3, h4, h5, h6, h7, h8⟩ := hpkg
  unfold createdPackage
  cases data_hash with
  | false => exact ⟨h1, h2, h3, h4, h5, h6, h7, h8⟩
  | true =>
    refine ⟨h1, h2, h3, h4, h5, h6, h7, ?_⟩
    show wfValue (hexdigest hash_method _)
    exact hexdigest_wfValue hash_method _ hmeth

theorem content_le_tarEntryBytes_length (e : TarEntry) :
    e.content.length ≤ (tarEntryBytes e).length := by
  simp [tarEntryBytes]
  omega

theorem content_le_tarEntryBytes_len (nm : String) (c : Bytes) :
    c.length ≤ (tarEntryBytes ⟨nm, c⟩).length :=
  content_le_tarEntryBytes_length ⟨nm, c⟩

theorem tarStream_split (pre : List TarEntry) (e : TarEntry) (post : List TarEntry) :
    tarStream (pre ++ e :: post) =
      tarStream pre ++ (tarEntryBytes e ++ tarStream post) := by
  simp [tarStream]

/-- Walking a decompressed stream that is some members, then the one genuine
`.PKGINFO` member, then a closed tail of members none of which is named
`.PKGINFO`, and parsing the `.PKGINFO` contents, recovers the record. -/
theorem readPkginfo_stream (P : Package) (pre post : List TarEntry)
    (hP : wfPackage P)
    (hclen : (strBytes (to_pkginfo P)).length < 256 ^ 12)
    (hpre_wf : ∀ e ∈ pre, wfEntry e) (hpre_nm : ∀ e ∈ pre, e.name ≠ ".PKGINFO")
    (hpost_wf : ∀ e ∈ post, wfEntry e)
    (hpost_nm : ∀ e ∈ post, e.name ≠ ".PKGINFO") :
    ((parseTar (tarStream pre ++
        (tarEntryBytes ⟨".PKGINFO", strBytes (to_pkginfo P)⟩ ++
          closeTar (tarStream post)))).bind (fun entries =>
      ((entries.filter (fun e => e.name == ".PKGINFO")).getLast?).bind (fun e =>
        from_pkginfo (bytesStr e.content)))) = some P := by
  have hwfpkg : wfEntry ⟨".PKGINFO", strBytes (to_pkginfo P)⟩ := by
    refine ⟨?_, ?_, hclen⟩
    · show (".PKGINFO" : String).data.length ≤ 100
      decide
    · show ∀ c ∈ (".PKGINFO" : String).data, c.toNat ≠ 0
      decide
  have hstream : tarStream pre ++
      (tarEntryBytes ⟨".PKGINFO", strBytes (to_pkginfo P)⟩ ++
        closeTar (tarStream post)) =
      tarStream (pre ++ (⟨".PKGINFO", strBytes (to_pkginfo P)⟩ : TarEntry) :: post) ++
        List.replicate (1024 +
          ((10240 - ((tarStream post).length + 1024) % 10240) % 10240)) 0 := by
    rw [closeTar, List.replicate_add, tarStream_split]
    simp [List.append_assoc]
  rw [hstream]
  rw [parseTar_streamAppend _ (by
    intro e he
    rw [List.mem_append] at he
    rcases he with he | he
    · exact hpre_wf e he
    · rw [List.mem_cons] at he
      rcases he with he | he
      · rw [he]
        exact hwfpkg
      · exact hpost_wf e he)]
  rw [parseTar_zeros (by omega)]
  simp only [Option.map_some', Option.some_bind]
  rw [List.append_nil]
  rw [filter_pkginfo_single pre post _ hpre_nm hpost_nm rfl]
  simp only [List.getLast?_singleton, Option.some_bind]
  rw [bytesStr_strBytes]
  exact from_pkginfo_to_pkginfo P hP

/-- C5 (code bug): the read-back the claim requires is impossible for the
archives unsigned runs return.  The control stream stands at EOF when the
unsigned branch copies it, so the metadata segment — and with it the
`.PKGINFO` member — never reaches the archive: the stream decompresses
cleanly to the payload tar, the tar parses cleanly to the payload members,
but none of them is named `.PKGINFO`, so opening the archive without
supplying the record fails (`extractfile('.PKGINFO')` has nothing to
resolve; the model's reader yields `none`) instead of recovering the
record. -/
theorem unsigned_archive_readback_impossible (package : Package) (datadir : String)
    (tree : List FSNode) (filters : List (String → Bool)) (cryptoAvail : Bool)
    (privkey : Option Nat) (pubkeyName : String) (data_hash : Bool)
    (hash_method : String) (now : Nat) (tmpPath : String) (r : CreateResult)
    (hok : APKFile.create package datadir tree filters false cryptoAvail privkey
      pubkeyName data_hash hash_method now tmpPath = Except.ok r)
    (htree : ∀ n ∈ globStar tree, wfNode n.name.data.length n = true)
    (hne : ∀ n ∈ globStar tree, n.name.data ≠ [])
    (hd : (dataTarBytes datadir tree (apkFilters filters)).length < 256 ^ 8) :
    gunzipAll r.apk.fileobj =
      some (abuild_tar_hash (dataTarBytes datadir tree (apkFilters filters))) ∧
    parseTar (abuild_tar_hash (dataTarBytes datadir tree (apkFilters filters))) =
      some (dataEntries datadir tree (apkFilters filters)) ∧
    (∀ e ∈ dataEntries datadir tree (apkFilters filters), e.name ≠ ".PKGINFO") ∧
    readPackage r.apk.fileobj = none ∧
    APKFile.init r.apk.fileobj none = none := by
  obtain ⟨-, -, hcase⟩ := create_cases package datadir tree filters false
    cryptoAvail privkey pubkeyName data_hash hash_method now tmpPath r hok
  rcases hcase with ⟨hfalse, -⟩ | ⟨-, hfile⟩
  · cases hfalse
  have hgz : gunzipAll r.apk.fileobj =
      some (abuild_tar_hash (dataTarBytes datadir tree (apkFilters filters))) := by
    rw [hfile]
    show gunzipAll (gzipCompress now (abuild_tar_hash (dataTarBytes datadir tree
      (apkFilters filters)))) = _
    exact gunzipAll_single now hd
  have hwfE := dataEntries_wfEntry datadir tree (apkFilters filters) htree
  have hparse : parseTar (abuild_tar_hash (dataTarBytes datadir tree
      (apkFilters filters))) =
      some (dataEntries datadir tree (apkFilters filters)) := by
    show parseTar (closeTar (tarStream (dataEntries datadir tree
      (apkFilters filters)))) = _
    exact parseTar_closed hwfE
  have hnm := dataEntries_not_pkginfo datadir tree (apkFilters filters) hne
  have hread : readPackage r.apk.fileobj = none := by
    rw [readPackage, hgz]
    simp only [Option.some_bind]
    rw [hparse]
    simp only [Option.some_bind]
    rw [List.filter_eq_nil.mpr (by
      intro e he
      simpa using hnm e he)]
    rfl
  refine ⟨hgz, hparse, hnm, hread, ?_⟩
  rw [APKFile.init, hread]
  rfl

/-- C5 (witness): the concrete unsigned run over `treeEx`, whose archive
decodes to the `bin/` members alone and yields no record. -/
theorem unsigned_archive_readback_impossible_witness :
    APKFile.create pkgEx "/d" treeEx [] false true none "k" false "sha256" 0 "/t" =
      Except.ok resC1 ∧
    (gunzipAll resC1.apk.fileobj =
        some (abuild_tar_hash (dataTarBytes "/d" treeEx (apkFilters []))) ∧
     parseTar (abuild_tar_hash (dataTarBytes "/d" treeEx (apkFilters []))) =
        some (dataEntries "/d" treeEx (apkFilters [])) ∧
     (∀ e ∈ dataEntries "/d" treeEx (apkFilters []), e.name ≠ ".PKGINFO") ∧
     readPackage resC1.apk.fileobj = none ∧
     APKFile.init resC1.apk.fileobj none = none) :=
  ⟨rfl, unsigned_archive_readback_impossible pkgEx "/d" treeEx [] true none "k"
    false "sha256" 0 "/t" resC1 rfl (by decide) (by decide)
    (by rw [dataTar_treeEx_length]; decide)⟩

/-- The signed path, by contrast, does deliver the round trip: its control
stream is rewound, so the archive carries the metadata segment and reading
it back without a record recovers exactly the record the run serialized. -/
theorem signed_create_read_roundtrip (package : Package) (datadir : String)
    (tree : List FSNode) (filters : List (String → Bool)) (cryptoAvail : Bool)
    (privkey : Option Nat) (pubkeyName : String) (data_hash : Bool)
    (hash_method : String) (now : Nat) (tmpPath : String) (r : CreateResult)
    (hok : APKFile.create package datadir tree filters true cryptoAvail privkey
      pubkeyName data_hash hash_method now tmpPath = Except.ok r)
    (hpkg : wfPackage package)
    (hmeth : wfValue hash_method)
    (htree : ∀ n ∈ globStar tree, wfNode n.name.data.length n = true)
    (hne : ∀ n ∈ globStar tree, n.name.data ≠ [])
    (hpub100 : (".SIGN.RSA." ++ pubkeyName).data.length ≤ 100)
    (hpub0 : ∀ ch ∈ pubkeyName.data, ch.toNat ≠ 0)
    (hc : (tarEntryBytes ⟨".PKGINFO", strBytes (to_pkginfo r.apk.package)⟩).length
      < 256 ^ 8)
    (hs : (tarEntryBytes ⟨".SIGN.RSA." ++ pubkeyName,
      rsaSign 0 (make_control_tgz r.apk.package now)⟩).length < 256 ^ 8)
    (hd : (dataTarBytes datadir tree (apkFilters filters)).length < 256 ^ 8) :
    readPackage r.apk.fileobj = some r.apk.package ∧
    APKFile.init r.apk.fileobj none = some ⟨r.apk.fileobj, r.apk.package⟩ := by
  obtain ⟨-, hpkg2, hcase⟩ := create_cases package datadir tree filters true
    cryptoAvail privkey pubkeyName data_hash hash_method now tmpPath r hok
  rw [← hpkg2] at hcase
  have hPwf : wfPackage r.apk.package := by
    rw [hpkg2]
    exact createdPackage_wf package tree datadir filters data_hash hash_method now
      tmpPath hpkg hmeth
  have hdataEwf := dataEntries_wfEntry datadir tree (apkFilters filters) htree
  have hdataEnm := dataEntries_not_pkginfo datadir tree (apkFilters filters) hne
  have hclen : (strBytes (to_pkginfo r.apk.package)).length < 256 ^ 12 := by
    have h1 : (strBytes (to_pkginfo r.apk.package)).length ≤
        (tarEntryBytes ⟨".PKGINFO", strBytes (to_pkginfo r.apk.package)⟩).length :=
      content_le_tarEntryBytes_len ".PKGINFO" (strBytes (to_pkginfo r.apk.package))
    have h2 : (256 : Nat) ^ 8 ≤ 256 ^ 12 := by norm_num
    omega
  have hmain : readPackage r.apk.fileobj = some r.apk.package := by
    rcases hcase with ⟨-, -, k, hkey, hfile⟩ | ⟨hfalse, -⟩
    · have hsiglen : (tarEntryBytes ⟨".SIGN.RSA." ++ pubkeyName,
          rsaSign k (make_control_tgz r.apk.package now)⟩).length < 256 ^ 8 := by
        rw [tarEntryBytes_length_content_eq (".SIGN.RSA." ++ pubkeyName)
          (rsaSign k (make_control_tgz r.apk.package now))
          (rsaSign 0 (make_control_tgz r.apk.package now))
          (by rw [rsaSign_length, rsaSign_length])]
        exact hs
      have hsigclen : (rsaSign k (make_control_tgz r.apk.package now)).length
          < 256 ^ 12 := by
        have h1 : (rsaSign k (make_control_tgz r.apk.package now)).length ≤
            (tarEntryBytes ⟨".SIGN.RSA." ++ pubkeyName,
              rsaSign k (make_control_tgz r.apk.package now)⟩).length :=
          content_le_tarEntryBytes_len (".SIGN.RSA." ++ pubkeyName)
            (rsaSign k (make_control_tgz r.apk.package now))
        have h2 : (256 : Nat) ^ 8 ≤ 256 ^ 12 := by norm_num
        omega
      have hsignm : (".SIGN.RSA." ++ pubkeyName) ≠ ".PKGINFO" := by
        intro h
        have hd2 := congrArg String.data h
        rw [String.data_append] at hd2
        rw [show (".SIGN.RSA." : String).data =
          ['.', 'S', 'I', 'G', 'N', '.', 'R', 'S', 'A', '.'] from rfl] at hd2
        simp at hd2
      have hsigwf : wfEntry ⟨".SIGN.RSA." ++ pubkeyName,
          rsaSign k (make_control_tgz r.apk.package now)⟩ := by
        refine ⟨hpub100, ?_, hsigclen⟩
        intro ch hch
        rw [String.data_append, List.mem_append] at hch
        rcases hch with hch | hch
        · rw [show (".SIGN.RSA." : String).data =
            ['.', 'S', 'I', 'G', 'N', '.', 'R', 'S', 'A', '.'] from rfl] at hch
          fin_cases hch <;> decide
        · exact hpub0 ch hch
      have hgz : gunzipAll r.apk.fileobj =
          some (tarEntryBytes ⟨".SIGN.RSA." ++ pubkeyName,
              rsaSign k (make_control_tgz r.apk.package now)⟩ ++
            (tarEntryBytes ⟨".PKGINFO", strBytes (to_pkginfo r.apk.package)⟩ ++
              dataTarBytes datadir tree (apkFilters filters))) := by
        rw [hfile, sign_control, List.append_assoc]
        rw [gunzipAll_member now _ hsiglen]
        show Option.map _ (gunzipAll (gzipCompress now _ ++ gzipCompress now _)) = _
        rw [gunzipAll_pair now now hc
          (show (abuild_tar_hash (dataTarBytes datadir tree
            (apkFilters filters))).length < 256 ^ 8 from hd)]
        rfl
      rw [readPackage, hgz]
      simp only [Option.some_bind]
      rw [show tarEntryBytes ⟨".SIGN.RSA." ++ pubkeyName,
            rsaSign k (make_control_tgz r.apk.package now)⟩ ++
          (tarEntryBytes ⟨".PKGINFO", strBytes (to_pkginfo r.apk.package)⟩ ++
            dataTarBytes datadir tree (apkFilters filters)) =
          tarStream [⟨".SIGN.RSA." ++ pubkeyName,
            rsaSign k (make_control_tgz r.apk.package now)⟩] ++
          (tarEntryBytes ⟨".PKGINFO", strBytes (to_pkginfo r.apk.package)⟩ ++
            closeTar (tarStream (dataEntries datadir tree (apkFilters filters))))
        from by simp [tarStream, dataTarBytes]]
      exact readPkginfo_stream r.apk.package _ _ hPwf hclen
        (by
          intro e he
          rw [List.mem_singleton] at he
          rw [he]
          exact hsigwf)
        (by
          intro e he
          rw [List.mem_singleton] at he
          rw [he]
          exact hsignm)
        hdataEwf hdataEnm
    · cases hfalse
  refine ⟨hmain, ?_⟩
  rw [APKFile.init, hmain]
  rfl

end Apkkit
